import Mathlib

/-!
Asteroids object model: shape normalisation, pose update, collision test.

A shallow embedding of `src/object.cpp` (class `Object`): `setupVAO`,
`modelToWorldTransform`, `updatePose` and the two `intersects` overloads.

Scalars: the C++ `float` is modelled in exact arithmetic by an arbitrary
linearly ordered field `K` (instantiate `K := ℚ` to evaluate, `K := ℝ` for the
statements over the reals).  The literals `0.5` and `0.0001` of the source are
written `1/2` and `1/10000`.  Where the rounding of `float` decides a statement
about the position arithmetic of `updatePose`, that arithmetic is also modelled
in binary32 (`round32`, `updatePosePosition32`).

Memory: the C array `objectVerts` is a `List K` holding the whole buffer.  A read
at an index outside the buffer is undefined behaviour in C++; the model returns
`none` there, so a result `some _` means that every read stayed inside the buffer.
-/

namespace Asteroids

/-! ## Linear algebra (header `linalg.h`, not part of `src/`) -/

/-- Modelled from the spec: the three-component vector type `vec3` of the
linear-algebra header, which is not under `src/` ("vector, matrix, quaternion
types with standard operations"). -/
structure vec3 (K : Type) where
  x : K
  y : K
  z : K
deriving DecidableEq

/-- Modelled from the spec: the homogeneous four-component vector type `vec4`
of the linear-algebra header. -/
structure vec4 (K : Type) where
  x : K
  y : K
  z : K
  w : K
deriving DecidableEq

/-- Modelled from the spec: the 4x4 matrix type `mat4` of the linear-algebra
header, stored as its four rows. -/
structure mat4 (K : Type) where
  r0 : vec4 K
  r1 : vec4 K
  r2 : vec4 K
  r3 : vec4 K
deriving DecidableEq

/-- Modelled from the spec: the quaternion type of the linear-algebra header,
scalar part `q0`, vector part `(q1, q2, q3)`. -/
structure quaternion (K : Type) where
  q0 : K
  q1 : K
  q2 : K
  q3 : K
deriving DecidableEq

/-- Modelled from the spec: the two-component point used for the world bounds
("two 2D points worldMin, worldMax"). -/
structure vec2 (K : Type) where
  x : K
  y : K
deriving DecidableEq

/-- Modelled from the spec: the functions of the C math library that the
linear-algebra header calls (square root for `length`, cosine and sine for the
angle-axis quaternion).  They are parameters of the model; theorems state the
facts about them that they use. -/
structure CMath (K : Type) where
  sqrt : K → K
  cos : K → K
  sin : K → K

section LinAlg

variable {K : Type} [LinearOrderedField K]

/-- Modelled from the spec: `vec3 + vec3`, componentwise. -/
def vec3.add (a b : vec3 K) : vec3 K := ⟨a.x + b.x, a.y + b.y, a.z + b.z⟩

/-- Modelled from the spec: `float * vec3`, componentwise. -/
def vec3.smul (k : K) (a : vec3 K) : vec3 K := ⟨k * a.x, k * a.y, k * a.z⟩

instance : Add (vec3 K) := ⟨vec3.add⟩

instance : HMul K (vec3 K) (vec3 K) := ⟨vec3.smul⟩

/-- Modelled from the spec: `vec3::length()`, the Euclidean length. -/
def vec3.length (m : CMath K) (a : vec3 K) : K :=
  m.sqrt (a.x * a.x + a.y * a.y + a.z * a.z)

/-- Modelled from the spec: `vec3::normalize()`, the vector divided by its
length. -/
def vec3.normalize (m : CMath K) (a : vec3 K) : vec3 K :=
  ⟨a.x / a.length m, a.y / a.length m, a.z / a.length m⟩

/-- Modelled from the spec: the constructor `vec4( vec3 )`, which makes the
homogeneous point with `w = 1`. -/
def vec4.ofVec3 (v : vec3 K) : vec4 K := ⟨v.x, v.y, v.z, 1⟩

/-- Modelled from the spec: `vec4::toVec3()`, de-homogenisation ("homogeneous
transform then de-homogenize"). -/
def vec4.toVec3 (v : vec4 K) : vec3 K := ⟨v.x / v.w, v.y / v.w, v.z / v.w⟩

/-- Modelled from the spec: the dot product of two `vec4`. -/
def vec4.dot (a b : vec4 K) : K := a.x * b.x + a.y * b.y + a.z * b.z + a.w * b.w

/-- Modelled from the spec: `mat4 * vec4`, the matrix applied to a column
vector. -/
def mat4.mulVec (M : mat4 K) (v : vec4 K) : vec4 K :=
  ⟨M.r0.dot v, M.r1.dot v, M.r2.dot v, M.r3.dot v⟩

/-- Column 0 of a matrix. -/
def mat4.c0 (M : mat4 K) : vec4 K := ⟨M.r0.x, M.r1.x, M.r2.x, M.r3.x⟩

/-- Column 1 of a matrix. -/
def mat4.c1 (M : mat4 K) : vec4 K := ⟨M.r0.y, M.r1.y, M.r2.y, M.r3.y⟩

/-- Column 2 of a matrix. -/
def mat4.c2 (M : mat4 K) : vec4 K := ⟨M.r0.z, M.r1.z, M.r2.z, M.r3.z⟩

/-- Column 3 of a matrix. -/
def mat4.c3 (M : mat4 K) : vec4 K := ⟨M.r0.w, M.r1.w, M.r2.w, M.r3.w⟩

/-- Modelled from the spec: `mat4 * mat4`, the matrix product (rows of the
left factor against columns of the right factor). -/
def mat4.mul (A B : mat4 K) : mat4 K :=
  ⟨⟨A.r0.dot B.c0, A.r0.dot B.c1, A.r0.dot B.c2, A.r0.dot B.c3⟩,
   ⟨A.r1.dot B.c0, A.r1.dot B.c1, A.r1.dot B.c2, A.r1.dot B.c3⟩,
   ⟨A.r2.dot B.c0, A.r2.dot B.c1, A.r2.dot B.c2, A.r2.dot B.c3⟩,
   ⟨A.r3.dot B.c0, A.r3.dot B.c1, A.r3.dot B.c2, A.r3.dot B.c3⟩⟩

instance : Mul (mat4 K) := ⟨mat4.mul⟩

instance : HMul (mat4 K) (vec4 K) (vec4 K) := ⟨mat4.mulVec⟩

/-- Modelled from the spec: `identity4()`, the 4x4 identity matrix. -/
def identity4 : mat4 K :=
  ⟨⟨1, 0, 0, 0⟩, ⟨0, 1, 0, 0⟩, ⟨0, 0, 1, 0⟩, ⟨0, 0, 0, 1⟩⟩

/-- Modelled from the spec: `scale( sx, sy, sz )`, the diagonal scaling
matrix. -/
def scale (sx sy sz : K) : mat4 K :=
  ⟨⟨sx, 0, 0, 0⟩, ⟨0, sy, 0, 0⟩, ⟨0, 0, sz, 0⟩, ⟨0, 0, 0, 1⟩⟩

/-- Modelled from the spec: `translate( v )`, the translation matrix; the
three-scalar overload `translate( tx, ty, tz )` is this one at
`vec3( tx, ty, tz )`. -/
def translate (v : vec3 K) : mat4 K :=
  ⟨⟨1, 0, 0, v.x⟩, ⟨0, 1, 0, v.y⟩, ⟨0, 0, 1, v.z⟩, ⟨0, 0, 0, 1⟩⟩

/-- Modelled from the spec: the constructor `quaternion( angle, axis )`, the
rotation by `angle` about `axis`: `(cos(angle/2), sin(angle/2) * axis)`. -/
def quaternion.ofAngleAxis (m : CMath K) (angle : K) (axis : vec3 K) : quaternion K :=
  ⟨m.cos (angle / 2), m.sin (angle / 2) * axis.x, m.sin (angle / 2) * axis.y,
   m.sin (angle / 2) * axis.z⟩

/-- The identity quaternion `(1, 0, 0, 0)`. -/
def quaternion.identity : quaternion K := ⟨1, 0, 0, 0⟩

/-- Modelled from the spec: `quaternion * quaternion`, the Hamilton product. -/
def quaternion.mul (p q : quaternion K) : quaternion K :=
  ⟨p.q0 * q.q0 - p.q1 * q.q1 - p.q2 * q.q2 - p.q3 * q.q3,
   p.q0 * q.q1 + p.q1 * q.q0 + p.q2 * q.q3 - p.q3 * q.q2,
   p.q0 * q.q2 - p.q1 * q.q3 + p.q2 * q.q0 + p.q3 * q.q1,
   p.q0 * q.q3 + p.q1 * q.q2 - p.q2 * q.q1 + p.q3 * q.q0⟩

instance : Mul (quaternion K) := ⟨quaternion.mul⟩

/-- Modelled from the spec: `quaternion::toMatrix()`, the rotation matrix of a
quaternion. -/
def quaternion.toMatrix (q : quaternion K) : mat4 K :=
  ⟨⟨1 - 2 * (q.q2 * q.q2 + q.q3 * q.q3), 2 * (q.q1 * q.q2 - q.q0 * q.q3),
      2 * (q.q1 * q.q3 + q.q0 * q.q2), 0⟩,
   ⟨2 * (q.q1 * q.q2 + q.q0 * q.q3), 1 - 2 * (q.q1 * q.q1 + q.q3 * q.q3),
      2 * (q.q2 * q.q3 - q.q0 * q.q1), 0⟩,
   ⟨2 * (q.q1 * q.q3 - q.q0 * q.q2), 2 * (q.q2 * q.q3 + q.q0 * q.q1),
      1 - 2 * (q.q1 * q.q1 + q.q2 * q.q2), 0⟩,
   ⟨0, 0, 0, 1⟩⟩

end LinAlg

/-! ## Data model (headers `seg.h`, `object.h`, `world.h`, not part of `src/`) -/

/-- Modelled from the spec: a `Segment`, an ordered pair of points `tail` and
`head`, built by `Segment( tail, head )`. -/
structure Segment (K : Type) where
  tail : vec3 K
  head : vec3 K
deriving DecidableEq

/-- Modelled from the spec: the part of the `World` that `Object` reads, the
two corners of the toroidal bounds. -/
structure World (K : Type) where
  worldMin : vec2 K
  worldMax : vec2 K

/-- Modelled from the spec: the fields of `Object` that `src/object.cpp` reads
and writes (the class declaration is in `object.h`).  The GPU handle `VAO` is
rendering state and is left out. -/
structure Object (K : Type) where
  segments : List (Segment K)
  position : vec3 K
  velocity : vec3 K
  orientation : quaternion K
  angularVelocity : vec3 K
  scaleFactor : K
  world : World K

section Code

variable {K : Type} [LinearOrderedField K]

/-! ## `Object::setupVAO` (lines 16-54) -/

/-- The bounding-box loop of `setupVAO` (lines 27-33).  The list is the buffer
`objectVerts` from index `i` on; `mn` and `mx` are the running `min` and `max`.
The loop stops when the value at index `i` is the sentinel 9999 and otherwise
reads indices `i` and `i+1` and steps by 2. -/
def boundingBoxLoop : List K → vec3 K → vec3 K → Option (vec3 K × vec3 K)
  | [], _, _ => none
  | [x], mn, mx => if x = 9999 then some (mn, mx) else none
  | x :: y :: rest, mn, mx =>
    if x = 9999 then some (mn, mx)
    else
      let v : vec3 K := ⟨x, y, 0⟩
      let mn1 : vec3 K := if v.x < mn.x then ⟨v.x, mn.y, mn.z⟩ else mn
      let mx1 : vec3 K := if v.x > mx.x then ⟨v.x, mx.y, mx.z⟩ else mx
      let mn2 : vec3 K := if v.y < mn1.y then ⟨mn1.x, v.y, mn1.z⟩ else mn1
      let mx2 : vec3 K := if v.y > mx1.y then ⟨mx1.x, v.y, mx1.z⟩ else mx1
      boundingBoxLoop rest mn2 mx2

/-- Lines 23-33 of `setupVAO`: `min` and `max` start at the first pair of the
buffer (read before any sentinel test), then the bounding-box loop runs from
index 0. -/
def boundingBox (objectVerts : List K) : Option (vec3 K × vec3 K) :=
  match objectVerts with
  | x0 :: y0 :: _ => boundingBoxLoop objectVerts ⟨x0, y0, 0⟩ ⟨x0, y0, 0⟩
  | _ => none

/-- The rewriting loop of `setupVAO` (lines 44-48).  The list is the buffer from
index `i` on and the result is that part of the buffer after the loop.  The
sentinel test reads the value at index `i` before that pair is rewritten. -/
def rewriteLoop (M : mat4 K) : List K → Option (List K)
  | [] => none
  | [x] => if x = 9999 then some [x] else none
  | x :: y :: rest =>
    if x = 9999 then some (x :: y :: rest)
    else
      let newV : vec4 K := M * (⟨x, y, 0, 1⟩ : vec4 K)
      (rewriteLoop M rest).map (fun r => newV.x / newV.w :: newV.y / newV.w :: r)

/-- Lines 38-42 of `setupVAO`: the matrix `modelToOriginTransform` built from
the bounding box and the requested width.  The division is the field division;
when `max.x = min.x` the C++ float division gives an infinity or NaN, which the
exact model does not represent: what is proved below for that case holds
whatever the value of the quotient is. -/
def modelToOriginTransform (mn mx : vec3 K) (objectWidth : K) : mat4 K :=
  let s := objectWidth / (mx.x - mn.x)
  scale s s 1 * translate ⟨-(1 / 2) * (mn.x + mx.x), -(1 / 2) * (mn.y + mx.y), 0⟩

/-- Lines 23-48 of `setupVAO`: the in-place rewrite of the vertex buffer.  The
result is the buffer after the rewrite. -/
def rewriteVertices (objectVerts : List K) (objectWidth : K) : Option (List K) :=
  match boundingBox objectVerts with
  | none => none
  | some (mn, mx) => rewriteLoop (modelToOriginTransform mn mx objectWidth) objectVerts

/-- The segment loop of `setupVAO` (lines 52-54).  The list is the (rewritten)
buffer from index `i` on, `segs` is the vector `segments` so far.  The loop
stops when the value at index `i` is 9999 and otherwise reads indices `i` to
`i+3`, pushes one segment at the back and steps by 4. -/
def storeSegments : List K → List (Segment K) → Option (List (Segment K))
  | [], _ => none
  | x :: y :: x2 :: y2 :: rest, segs =>
    if x = 9999 then some segs
    else storeSegments rest (segs ++ [Segment.mk ⟨x, y, 0⟩ ⟨x2, y2, 0⟩])
  | x :: _, segs => if x = 9999 then some segs else none

/-- `Object::setupVAO( objectVerts, objectWidth )`, lines 16-54: the vertex
rewrite followed by the segment loop.  The result is the object with its new
segment vector together with the buffer after the call.  The OpenGL calls of
lines 56-78 are rendering glue and are not modelled. -/
def setupVAO (o : Object K) (objectVerts : List K) (objectWidth : K) :
    Option (Object K × List K) :=
  match rewriteVertices objectVerts objectWidth with
  | none => none
  | some verts =>
    match storeSegments verts o.segments with
    | none => none
    | some segs => some ({ o with segments := segs }, verts)

/-! ## `Object::modelToWorldTransform` (lines 111-126) -/

/-- `Object::modelToWorldTransform()`: `M = T * R * S`. -/
def modelToWorldTransform (o : Object K) : mat4 K :=
  let S := scale o.scaleFactor o.scaleFactor 1
  let R := o.orientation.toMatrix
  let T := translate o.position
  T * R * S

/-! ## `Object::draw` (lines 86-100) -/

/-- `Object::draw( worldToViewTransform )`: the matrix `modelToViewTransform` that
the function hands to the renderer as the uniform `MVP`.  The OpenGL calls
themselves are not modelled. -/
def draw (o : Object K) (worldToViewTransform : mat4 K) : mat4 K :=
  let M := modelToWorldTransform o
  let P : mat4 K := identity4
  P * worldToViewTransform * M

/-! ## `Object::updatePose` (lines 133-163) -/

/-- `Object::updatePose( deltaT )`.  The position update, the orientation
update and the four wrap-around tests, in the order of the source, in exact
arithmetic; `updatePosePosition32` below is the position part with the rounding
of the C++ `float`. -/
def updatePose (m : CMath K) (o : Object K) (deltaT : K) : Object K :=
  let position : vec3 K := o.position + deltaT * o.velocity
  let angularSpeed : K := o.angularVelocity.length m
  let rotationAxis : vec3 K :=
    if angularSpeed > 1 / 10000 then o.angularVelocity.normalize m else ⟨0, 0, 1⟩
  let q : quaternion K := quaternion.ofAngleAxis m (deltaT * angularSpeed) rotationAxis
  let orientation : quaternion K := q * o.orientation
  let w := o.world
  let position : vec3 K :=
    if position.x > w.worldMax.x then
      ⟨position.x - (w.worldMax.x - w.worldMin.x), position.y, position.z⟩
    else position
  let position : vec3 K :=
    if position.x < w.worldMin.x then
      ⟨position.x + (w.worldMax.x - w.worldMin.x), position.y, position.z⟩
    else position
  let position : vec3 K :=
    if position.y > w.worldMax.y then
      ⟨position.x, position.y - (w.worldMax.y - w.worldMin.y), position.z⟩
    else position
  let position : vec3 K :=
    if position.y < w.worldMin.y then
      ⟨position.x, position.y + (w.worldMax.y - w.worldMin.y), position.z⟩
    else position
  { o with position := position, orientation := orientation }

/-! ## `Object::updatePose` in binary32 (lines 138 and 155-162)

`updatePose` above computes in an exact field.  The C++ `float` is IEEE-754
binary32: every `+`, `-` and `*` is rounded to the nearest number with a 24-bit
significand, ties to the even one.  The definitions below model that rounding on
rationals for the position arithmetic of `updatePose`.  The exponent range is not
limited (no overflow to infinity, no subnormal numbers), which makes no difference
for values of ordinary magnitude. -/

/-- The integer nearest to a rational, the even one of the two when it lies
half-way between them. -/
def roundHalfEven (q : ℚ) : ℤ :=
  if q - ⌊q⌋ < 1 / 2 then ⌊q⌋
  else if 1 / 2 < q - ⌊q⌋ then ⌊q⌋ + 1
  else if ⌊q⌋ % 2 = 0 then ⌊q⌋ else ⌊q⌋ + 1

/-- The binary32 number nearest to a rational (round to nearest, ties to even):
for `2^e <= |x| < 2^(e+1)` the spacing of binary32 numbers is `2^(e-23)`, and `x`
is rounded to a multiple of it. -/
def round32 (x : ℚ) : ℚ :=
  if x = 0 then 0
  else (roundHalfEven (x / 2 ^ (Int.log 2 |x| - 23)) : ℚ) * 2 ^ (Int.log 2 |x| - 23)

/-- The `float` sum `a + b`. -/
def add32 (a b : ℚ) : ℚ := round32 (a + b)

/-- The `float` difference `a - b`. -/
def sub32 (a b : ℚ) : ℚ := round32 (a - b)

/-- The `float` product `a * b`. -/
def mul32 (a b : ℚ) : ℚ := round32 (a * b)

/-- The position that `Object::updatePose( deltaT )` stores, lines 138 and
155-162, with every `float` operation rounded to binary32: `position + deltaT *
velocity` componentwise, then the four wrap-around tests in the order of the
source, each of which recomputes the extent `worldMax - worldMin`. -/
def updatePosePosition32 (o : Object ℚ) (deltaT : ℚ) : vec3 ℚ :=
  let position : vec3 ℚ :=
    ⟨add32 o.position.x (mul32 deltaT o.velocity.x),
     add32 o.position.y (mul32 deltaT o.velocity.y),
     add32 o.position.z (mul32 deltaT o.velocity.z)⟩
  let w := o.world
  let position : vec3 ℚ :=
    if position.x > w.worldMax.x then
      ⟨sub32 position.x (sub32 w.worldMax.x w.worldMin.x), position.y, position.z⟩
    else position
  let position : vec3 ℚ :=
    if position.x < w.worldMin.x then
      ⟨add32 position.x (sub32 w.worldMax.x w.worldMin.x), position.y, position.z⟩
    else position
  let position : vec3 ℚ :=
    if position.y > w.worldMax.y then
      ⟨position.x, sub32 position.y (sub32 w.worldMax.y w.worldMin.y), position.z⟩
    else position
  let position : vec3 ℚ :=
    if position.y < w.worldMin.y then
      ⟨position.x, add32 position.y (sub32 w.worldMax.y w.worldMin.y), position.z⟩
    else position
  position

/-! ## `Object::intersects` (lines 167-202) -/

/-- The world-space copy of a local segment, as both `intersects` overloads
build it: `Segment( (M * vec4(tail)).toVec3(), (M * vec4(head)).toVec3() )`. -/
def worldSegment (M : mat4 K) (s : Segment K) : Segment K :=
  Segment.mk (M * vec4.ofVec3 s.tail).toVec3 (M * vec4.ofVec3 s.head).toVec3

/-- The loop of `Object::intersects( Segment const& )` (lines 191-201) over the
segments from index `i` on, with its early `return true`.  `segIntersects s seg`
stands for `s.intersects( seg )`, the primitive of `seg.h`, which is not under
`src/` and is a parameter. -/
def intersectsSegmentLoop (segIntersects : Segment K → Segment K → Bool) (M : mat4 K)
    (seg : Segment K) : List (Segment K) → Bool
  | [] => false
  | s :: rest =>
    if segIntersects (worldSegment M s) seg then true
    else intersectsSegmentLoop segIntersects M seg rest

/-- `Object::intersects( Segment const &seg )`. -/
def intersectsSegment (segIntersects : Segment K → Segment K → Bool) (o : Object K)
    (seg : Segment K) : Bool :=
  intersectsSegmentLoop segIntersects (modelToWorldTransform o) seg o.segments

/-- The loop of `Object::intersects( Object const& )` (lines 172-182) over the
segments from index `i` on, with its early `return true`. -/
def intersectsLoop (segIntersects : Segment K → Segment K → Bool) (M : mat4 K)
    (obj : Object K) : List (Segment K) → Bool
  | [] => false
  | s :: rest =>
    if intersectsSegment segIntersects obj (worldSegment M s) then true
    else intersectsLoop segIntersects M obj rest

/-- `Object::intersects( Object const& obj )`. -/
def intersects (segIntersects : Segment K → Segment K → Bool) (o obj : Object K) : Bool :=
  intersectsLoop segIntersects (modelToWorldTransform o) obj o.segments

end Code

/-! ## Vocabulary of the claims -/

section Vocabulary

variable {K : Type} [LinearOrderedField K]

/-- The flat layout of a list of `(x, y)` pairs in `objectVerts`: `x0, y0, x1, y1, ...`
(the sentinel is not included). -/
def flatten : List (K × K) → List K
  | [] => []
  | p :: ps => p.1 :: p.2 :: flatten ps

/-- The rectangle `[minX, maxX] x [minY, maxY]` is the axis-aligned bounding box
of the points: it contains all of them and each of its four sides touches one. -/
def IsBoundingBox (pts : List (K × K)) (minX maxX minY maxY : K) : Prop :=
  (∀ p ∈ pts, minX ≤ p.1 ∧ p.1 ≤ maxX ∧ minY ≤ p.2 ∧ p.2 ≤ maxY) ∧
  (∃ p ∈ pts, p.1 = minX) ∧ (∃ p ∈ pts, p.1 = maxX) ∧
  (∃ p ∈ pts, p.2 = minY) ∧ (∃ p ∈ pts, p.2 = maxY)

/-- What the body of the rewriting loop (lines 45-47) stores for the pair
`(x, y)`: `newV = M * vec4( x, y, 0, 1 )`, then `(newV.x / newV.w, newV.y / newV.w)`. -/
def rewritePoint (M : mat4 K) (p : K × K) : K × K :=
  ((M * (⟨p.1, p.2, 0, 1⟩ : vec4 K)).x / (M * (⟨p.1, p.2, 0, 1⟩ : vec4 K)).w,
   (M * (⟨p.1, p.2, 0, 1⟩ : vec4 K)).y / (M * (⟨p.1, p.2, 0, 1⟩ : vec4 K)).w)

/-- The value of the local variable `rotationAxis` of `updatePose` (lines
142-148). -/
def rotationAxisOf (m : CMath K) (o : Object K) : vec3 K :=
  if o.angularVelocity.length m > 1 / 10000 then o.angularVelocity.normalize m else ⟨0, 0, 1⟩

/-- The value of the local variable `q` of `updatePose` (line 150), the
incremental rotation. -/
def incrementalRotation (m : CMath K) (o : Object K) (deltaT : K) : quaternion K :=
  quaternion.ofAngleAxis m (deltaT * o.angularVelocity.length m) (rotationAxisOf m o)

/-- An object at rest at the origin of the world `[-1, 1] x [-1, 1]`, with no
segments, the identity orientation and scale factor 1; the concrete instances
below are variations of it. -/
def exampleObject (K : Type) [LinearOrderedField K] : Object K :=
  ⟨[], ⟨0, 0, 0⟩, ⟨0, 0, 0⟩, quaternion.identity, ⟨0, 0, 0⟩, 1, ⟨⟨-1, -1⟩, ⟨1, 1⟩⟩⟩

/-- Two segments share a point of the plane: some point of the first, at
parameter `a` in `[0, 1]` from tail to head, has the x and y coordinates of some
point of the second, at parameter `b` in `[0, 1]`. -/
def SharePoint (s t : Segment K) : Prop :=
  ∃ a b : K, 0 ≤ a ∧ a ≤ 1 ∧ 0 ≤ b ∧ b ≤ 1 ∧
    s.tail.x + a * (s.head.x - s.tail.x) = t.tail.x + b * (t.head.x - t.tail.x) ∧
    s.tail.y + a * (s.head.y - s.tail.y) = t.tail.y + b * (t.head.y - t.tail.y)

/-- An axis-aligned rectangle of the plane. -/
structure Box (K : Type) where
  minX : K
  maxX : K
  minY : K
  maxY : K

/-- The smallest box that contains a box and a point. -/
def Box.extend (b : Box K) (p : vec3 K) : Box K :=
  ⟨min b.minX p.x, max b.maxX p.x, min b.minY p.y, max b.maxY p.y⟩

/-- The axis-aligned bounding box (in x and y) of a list of points; a list
without points has none. -/
def boxOf : List (vec3 K) → Option (Box K)
  | [] => none
  | p :: ps => some (ps.foldl Box.extend ⟨p.x, p.x, p.y, p.y⟩)

/-- Two boxes are disjoint: on the x axis or on the y axis one of them ends
before the other starts. -/
def Box.disjoint (a b : Box K) : Prop :=
  a.maxX < b.minX ∨ b.maxX < a.minX ∨ a.maxY < b.minY ∨ b.maxY < a.minY

/-- All endpoints of a list of segments. -/
def endpoints : List (Segment K) → List (vec3 K)
  | [] => []
  | s :: rest => s.tail :: s.head :: endpoints rest

/-- All endpoints of the segments of an object after its own
`modelToWorldTransform`. -/
def worldEndpoints (o : Object K) : List (vec3 K) :=
  endpoints (o.segments.map (worldSegment (modelToWorldTransform o)))

/-- Modelled from the spec: an instance of the primitive `Segment::intersects`
of `seg.h`, which is not under `src/` ("parametric line intersection with bounds
check in [0,1] for both parameters"; parallel segments are treated as
non-intersecting).  The claims take the primitive as a parameter; this instance
only shows that what they assume of it can be met. -/
def segmentIntersects (s t : Segment K) : Bool :=
  let den := (s.head.x - s.tail.x) * (t.head.y - t.tail.y)
    - (s.head.y - s.tail.y) * (t.head.x - t.tail.x)
  let a := ((t.tail.x - s.tail.x) * (t.head.y - t.tail.y)
    - (t.tail.y - s.tail.y) * (t.head.x - t.tail.x)) / den
  let b := ((t.tail.x - s.tail.x) * (s.head.y - s.tail.y)
    - (t.tail.y - s.tail.y) * (s.head.x - s.tail.x)) / den
  decide (den ≠ 0) && decide (0 ≤ a) && decide (a ≤ 1) && decide (0 ≤ b) && decide (b ≤ 1)

/-- The segments that consecutive pairs of points make: points `2j` and `2j+1`
are the tail and the head of segment `j` (z = 0). -/
def pairUp : List (K × K) → List (Segment K)
  | p :: q :: rest => Segment.mk ⟨p.1, p.2, 0⟩ ⟨q.1, q.2, 0⟩ :: pairUp rest
  | _ => []

/-- The squared norm of a quaternion; a unit quaternion is one whose squared
norm is 1. -/
def quaternion.normSq (q : quaternion K) : K :=
  q.q0 * q.q0 + q.q1 * q.q1 + q.q2 * q.q2 + q.q3 * q.q3

/-- An object of binary32 coordinates at `x = 0.5 + 2^-23` at rest, in the world
with `worldMin.x = -(3.5 + 2^-22)` and `worldMax.x = 0.5 + 2^-24` (y bounds -1
and 1). -/
def wrapTwiceObject : Object ℚ :=
  { exampleObject ℚ with
    position := ⟨1 / 2 + 1 / 2 ^ 23, 0, 0⟩
    world := ⟨⟨-(7 / 2 + 1 / 2 ^ 22), -1⟩, ⟨1 / 2 + 1 / 2 ^ 24, 1⟩⟩ }

/-- An object of binary32 coordinates that starts on `worldMin.x = -(0.5 + 2^-24)`
with velocity `(-2^-24, 0, 0)`, in the world with `worldMax.x = 3.5 + 2^-22` (y
bounds -1 and 1). -/
def leavesWorldObject : Object ℚ :=
  { exampleObject ℚ with
    position := ⟨-(1 / 2 + 1 / 2 ^ 24), 0, 0⟩
    velocity := ⟨-(1 / 2 ^ 24), 0, 0⟩
    world := ⟨⟨-(1 / 2 + 1 / 2 ^ 24), -1⟩, ⟨7 / 2 + 1 / 2 ^ 22, 1⟩⟩ }

end Vocabulary

/-! ## Lemmas on the linear algebra -/

section LinAlgLemmas

variable {K : Type} [LinearOrderedField K]

theorem mat4_mul_def (A B : mat4 K) : A * B = mat4.mul A B := rfl

theorem mat4_mulVec_def (A : mat4 K) (v : vec4 K) : A * v = mat4.mulVec A v := rfl

theorem quaternion_mul_def (p q : quaternion K) : p * q = quaternion.mul p q := rfl

theorem vec3_add_def (a b : vec3 K) : a + b = vec3.add a b := rfl

theorem vec3_smul_def (k : K) (a : vec3 K) : k * a = vec3.smul k a := rfl

theorem mat4_identity_mul (A : mat4 K) : identity4 * A = A := by
  simp [mat4_mul_def, mat4.mul, identity4, vec4.dot, mat4.c0, mat4.c1, mat4.c2, mat4.c3]

theorem mat4_mul_assoc (A B C : mat4 K) : A * B * C = A * (B * C) := by
  simp only [mat4_mul_def, mat4.mul, vec4.dot, mat4.c0, mat4.c1, mat4.c2, mat4.c3,
    mat4.mk.injEq, vec4.mk.injEq]
  refine ⟨⟨?_, ?_, ?_, ?_⟩, ⟨?_, ?_, ?_, ?_⟩, ⟨?_, ?_, ?_, ?_⟩, ⟨?_, ?_, ?_, ?_⟩⟩ <;> ring

end LinAlgLemmas

/-! ## Lemmas on the loops of `setupVAO` -/

section SetupLemmas

variable {K : Type} [LinearOrderedField K]

theorem boundingBoxLoop_sentinel (junk : List K) (mn mx : vec3 K) :
    boundingBoxLoop (9999 :: junk) mn mx = some (mn, mx) := by
  cases junk <;> simp [boundingBoxLoop]

/-- One iteration of the bounding-box loop lowers `min` and raises `max`
componentwise. -/
theorem boundingBoxLoop_pair (x y : K) (rest : List K) (mn mx : vec3 K) (hx : x ≠ 9999) :
    boundingBoxLoop (x :: y :: rest) mn mx =
      boundingBoxLoop rest ⟨min x mn.x, min y mn.y, mn.z⟩ ⟨max x mx.x, max y mx.y, mx.z⟩ := by
  simp only [boundingBoxLoop, if_neg hx]
  congr 1
  · by_cases h1 : x < mn.x <;> by_cases h2 : y < mn.y <;>
      simp [h1, h2, min_eq_left_of_lt, min_eq_right (not_lt.mp _)]
  · by_cases h1 : mx.x < x <;> by_cases h2 : mx.y < y <;>
      simp [h1, h2, max_eq_left_of_lt, max_eq_right (not_lt.mp _)]

/-- The bounding-box loop on a well-formed buffer: it terminates at the
sentinel, and the final `min` and `max` bound every point and are attained
(by the initial value or by a point). -/
theorem boundingBoxLoop_flatten (junk : List K) (pts : List (K × K))
    (hs : ∀ p ∈ pts, p.1 ≠ 9999) (mn mx : vec3 K) :
    ∃ mn1 mx1, boundingBoxLoop (flatten pts ++ 9999 :: junk) mn mx = some (mn1, mx1) ∧
      (mn1.x ≤ mn.x ∧ mx.x ≤ mx1.x ∧ mn1.y ≤ mn.y ∧ mx.y ≤ mx1.y) ∧
      (∀ p ∈ pts, mn1.x ≤ p.1 ∧ p.1 ≤ mx1.x ∧ mn1.y ≤ p.2 ∧ p.2 ≤ mx1.y) ∧
      (mn1.x = mn.x ∨ ∃ p ∈ pts, p.1 = mn1.x) ∧ (mx1.x = mx.x ∨ ∃ p ∈ pts, p.1 = mx1.x) ∧
      (mn1.y = mn.y ∨ ∃ p ∈ pts, p.2 = mn1.y) ∧ (mx1.y = mx.y ∨ ∃ p ∈ pts, p.2 = mx1.y) := by
  induction pts generalizing mn mx with
  | nil =>
    refine ⟨mn, mx, ?_, ?_⟩
    · simpa [flatten] using boundingBoxLoop_sentinel junk mn mx
    · simp
  | cons p ps ih =>
    have hp : p.1 ≠ 9999 := hs p (List.mem_cons_self _ _)
    have hps : ∀ q ∈ ps, q.1 ≠ 9999 := fun q hq => hs q (List.mem_cons_of_mem _ hq)
    obtain ⟨mn1, mx1, heq, ⟨b1, b2, b3, b4⟩, hall, h1, h2, h3, h4⟩ := ih hps
      ⟨min p.1 mn.x, min p.2 mn.y, mn.z⟩ ⟨max p.1 mx.x, max p.2 mx.y, mx.z⟩
    simp only [le_min_iff, max_le_iff] at b1 b2 b3 b4
    refine ⟨mn1, mx1, ?_, ⟨b1.2, b2.2, b3.2, b4.2⟩, ?_, ?_, ?_, ?_, ?_⟩
    · simpa [flatten, boundingBoxLoop_pair _ _ _ _ _ hp] using heq
    · intro q hq
      rcases List.mem_cons.mp hq with rfl | hq
      · exact ⟨b1.1, b2.1, b3.1, b4.1⟩
      · exact hall q hq
    · rcases h1 with h | ⟨q, hq, h⟩
      · rcases min_choice p.1 mn.x with hm | hm
        · exact Or.inr ⟨p, List.mem_cons_self _ _, by rw [h]; exact hm.symm⟩
        · exact Or.inl (by rw [h]; exact hm)
      · exact Or.inr ⟨q, List.mem_cons_of_mem _ hq, h⟩
    · rcases h2 with h | ⟨q, hq, h⟩
      · rcases max_choice p.1 mx.x with hm | hm
        · exact Or.inr ⟨p, List.mem_cons_self _ _, by rw [h]; exact hm.symm⟩
        · exact Or.inl (by rw [h]; exact hm)
      · exact Or.inr ⟨q, List.mem_cons_of_mem _ hq, h⟩
    · rcases h3 with h | ⟨q, hq, h⟩
      · rcases min_choice p.2 mn.y with hm | hm
        · exact Or.inr ⟨p, List.mem_cons_self _ _, by rw [h]; exact hm.symm⟩
        · exact Or.inl (by rw [h]; exact hm)
      · exact Or.inr ⟨q, List.mem_cons_of_mem _ hq, h⟩
    · rcases h4 with h | ⟨q, hq, h⟩
      · rcases max_choice p.2 mx.y with hm | hm
        · exact Or.inr ⟨p, List.mem_cons_self _ _, by rw [h]; exact hm.symm⟩
        · exact Or.inl (by rw [h]; exact hm)
      · exact Or.inr ⟨q, List.mem_cons_of_mem _ hq, h⟩

/-- Lines 23-33 on a well-formed buffer with at least one pair: the computed
`min` and `max` are the corners of the bounding box of the points. -/
theorem boundingBox_flatten (junk : List K) (pts : List (K × K)) (hne : pts ≠ [])
    (hs : ∀ p ∈ pts, p.1 ≠ 9999) :
    ∃ mn mx, boundingBox (flatten pts ++ 9999 :: junk) = some (mn, mx) ∧
      IsBoundingBox pts mn.x mx.x mn.y mx.y := by
  obtain ⟨p0, ps, rfl⟩ := List.exists_cons_of_ne_nil hne
  obtain ⟨mn, mx, heq, -, hall, h1, h2, h3, h4⟩ :=
    boundingBoxLoop_flatten junk (p0 :: ps) hs ⟨p0.1, p0.2, 0⟩ ⟨p0.1, p0.2, 0⟩
  have h0 : p0 ∈ p0 :: ps := List.mem_cons_self _ _
  refine ⟨mn, mx, ?_, hall, ?_, ?_, ?_, ?_⟩
  · simpa [boundingBox, flatten] using heq
  · exact h1.elim (fun h => ⟨p0, h0, h.symm⟩) id
  · exact h2.elim (fun h => ⟨p0, h0, h.symm⟩) id
  · exact h3.elim (fun h => ⟨p0, h0, h.symm⟩) id
  · exact h4.elim (fun h => ⟨p0, h0, h.symm⟩) id

theorem rewriteLoop_sentinel (M : mat4 K) (junk : List K) :
    rewriteLoop M (9999 :: junk) = some (9999 :: junk) := by
  cases junk <;> simp [rewriteLoop]

/-- The rewriting loop on a well-formed buffer rewrites every pair and leaves
the sentinel and what follows it untouched. -/
theorem rewriteLoop_flatten (M : mat4 K) (junk : List K) (pts : List (K × K))
    (hs : ∀ p ∈ pts, p.1 ≠ 9999) :
    rewriteLoop M (flatten pts ++ 9999 :: junk)
      = some (flatten (pts.map (rewritePoint M)) ++ 9999 :: junk) := by
  induction pts with
  | nil => simpa [flatten] using rewriteLoop_sentinel M junk
  | cons p ps ih =>
    have hp : p.1 ≠ 9999 := hs p (List.mem_cons_self _ _)
    have hps : ∀ q ∈ ps, q.1 ≠ 9999 := fun q hq => hs q (List.mem_cons_of_mem _ hq)
    simp [flatten, rewriteLoop, hp, ih hps, rewritePoint]

/-- The pair stored by the rewriting loop, in closed form: scale by
`s = objectWidth / (max.x - min.x)` about the centre of the bounding box. -/
theorem rewritePoint_modelToOrigin (mn mx : vec3 K) (w : K) (p : K × K) :
    rewritePoint (modelToOriginTransform mn mx w) p
      = (w / (mx.x - mn.x) * (p.1 - (mn.x + mx.x) / 2),
         w / (mx.x - mn.x) * (p.2 - (mn.y + mx.y) / 2)) := by
  simp only [rewritePoint, modelToOriginTransform, scale, translate, mat4_mul_def,
    mat4_mulVec_def, mat4.mul, mat4.mulVec, vec4.dot, mat4.c0, mat4.c1, mat4.c2, mat4.c3]
  refine Prod.ext ?_ ?_ <;> simp <;> ring

/-- Lines 23-48 on a well-formed buffer with at least one pair. -/
theorem rewriteVertices_flatten (junk : List K) (pts : List (K × K)) (hne : pts ≠ [])
    (hs : ∀ p ∈ pts, p.1 ≠ 9999) (w : K) :
    ∃ mn mx : vec3 K, IsBoundingBox pts mn.x mx.x mn.y mx.y ∧
      rewriteVertices (flatten pts ++ 9999 :: junk) w
        = some (flatten (pts.map (fun p => (w / (mx.x - mn.x) * (p.1 - (mn.x + mx.x) / 2),
            w / (mx.x - mn.x) * (p.2 - (mn.y + mx.y) / 2)))) ++ 9999 :: junk) := by
  obtain ⟨mn, mx, hbb, hbox⟩ := boundingBox_flatten junk pts hne hs
  refine ⟨mn, mx, hbox, ?_⟩
  simp only [rewriteVertices, hbb, rewriteLoop_flatten _ junk pts hs]
  congr 4
  funext p
  exact rewritePoint_modelToOrigin mn mx w p

/-- The bounding box of the image of a point set under a positive scaling
about a centre. -/
theorem IsBoundingBox.map_scale {pts : List (K × K)} {a b c d : K}
    (h : IsBoundingBox pts a b c d) (s cx cy : K) (hs : 0 < s) :
    IsBoundingBox (pts.map (fun p => (s * (p.1 - cx), s * (p.2 - cy))))
      (s * (a - cx)) (s * (b - cx)) (s * (c - cy)) (s * (d - cy)) := by
  obtain ⟨hall, ⟨p1, hp1, e1⟩, ⟨p2, hp2, e2⟩, ⟨p3, hp3, e3⟩, ⟨p4, hp4, e4⟩⟩ := h
  refine ⟨?_, ?_, ?_, ?_, ?_⟩
  · intro q hq
    obtain ⟨p, hp, rfl⟩ := List.mem_map.mp hq
    obtain ⟨h1, h2, h3, h4⟩ := hall p hp
    refine ⟨?_, ?_, ?_, ?_⟩ <;> apply mul_le_mul_of_nonneg_left _ hs.le <;> linarith
  · exact ⟨_, List.mem_map.mpr ⟨p1, hp1, rfl⟩, by simp [e1]⟩
  · exact ⟨_, List.mem_map.mpr ⟨p2, hp2, rfl⟩, by simp [e2]⟩
  · exact ⟨_, List.mem_map.mpr ⟨p3, hp3, rfl⟩, by simp [e3]⟩
  · exact ⟨_, List.mem_map.mpr ⟨p4, hp4, rfl⟩, by simp [e4]⟩

/-- In a bounding box of points that do not all share one x coordinate the
left side is strictly left of the right side. -/
theorem IsBoundingBox.minX_lt_maxX {pts : List (K × K)} {a b c d : K}
    (h : IsBoundingBox pts a b c d) (hx : ∃ p ∈ pts, ∃ q ∈ pts, p.1 ≠ q.1) : a < b := by
  obtain ⟨p, hp, q, hq, hpq⟩ := hx
  obtain ⟨hp1, hp2, -, -⟩ := h.1 p hp
  obtain ⟨hq1, hq2, -, -⟩ := h.1 q hq
  rcases lt_or_gt_of_ne hpq with hlt | hgt
  · exact lt_of_le_of_lt hp1 (lt_of_lt_of_le hlt hq2)
  · exact lt_of_le_of_lt hq1 (lt_of_lt_of_le hgt hp2)

theorem storeSegments_sentinel (junk : List K) (segs : List (Segment K)) :
    storeSegments (9999 :: junk) segs = some segs := by
  rcases junk with _ | ⟨a, _ | ⟨b, _ | ⟨c, r⟩⟩⟩ <;> simp [storeSegments]

theorem storeSegments_step (x y x2 y2 : K) (rest : List K) (segs : List (Segment K))
    (hx : x ≠ 9999) :
    storeSegments (x :: y :: x2 :: y2 :: rest) segs
      = storeSegments rest (segs ++ [Segment.mk ⟨x, y, 0⟩ ⟨x2, y2, 0⟩]) := by
  simp [storeSegments, hx]

theorem storeSegments_flatten (junk : List K) (k : Nat) :
    ∀ (pts : List (K × K)) (segs : List (Segment K)), pts.length = 2 * k →
      (∀ j p, pts[2 * j]? = some p → p.1 ≠ 9999) →
      storeSegments (flatten pts ++ 9999 :: junk) segs = some (segs ++ pairUp pts) := by
  induction k with
  | zero =>
    intro pts segs hlen _
    have : pts = [] := List.length_eq_zero.mp (by simpa using hlen)
    subst this
    simpa [flatten, pairUp] using storeSegments_sentinel junk segs
  | succ k ih =>
    intro pts segs hlen hn
    match pts, hlen, hn with
    | p :: q :: rest, hlen, hn =>
      have hp : p.1 ≠ 9999 := hn 0 p (by simp)
      have hrest : rest.length = 2 * k := by
        simp only [List.length_cons] at hlen
        omega
      have hn2 : ∀ j r, rest[2 * j]? = some r → r.1 ≠ 9999 := by
        intro j r hj
        apply hn (j + 1) r
        have : 2 * (j + 1) = 2 * j + 1 + 1 := by ring
        rw [this, List.getElem?_cons_succ, List.getElem?_cons_succ]
        exact hj
      have hstep := storeSegments_step p.1 p.2 q.1 q.2 (flatten rest ++ 9999 :: junk) segs hp
      simp only [flatten, List.cons_append, pairUp]
      rw [hstep, ih rest _ hrest hn2]
      simp
    | [], hlen, _ => simp only [List.length_nil] at hlen; omega
    | [_], hlen, _ => simp only [List.length_cons, List.length_nil] at hlen; omega

theorem pairUp_length (k : Nat) : ∀ (pts : List (K × K)), pts.length = 2 * k →
    (pairUp pts).length = k := by
  induction k with
  | zero =>
    intro pts hlen
    have : pts = [] := List.length_eq_zero.mp (by simpa using hlen)
    subst this
    simp [pairUp]
  | succ k ih =>
    intro pts hlen
    match pts, hlen with
    | p :: q :: rest, hlen =>
      have hrest : rest.length = 2 * k := by
        simp only [List.length_cons] at hlen
        omega
      simp [pairUp, ih rest hrest]
    | [], hlen => simp only [List.length_nil] at hlen; omega
    | [_], hlen => simp only [List.length_cons, List.length_nil] at hlen; omega

theorem pairUp_getElem? (j : Nat) : ∀ (pts : List (K × K)) (p q : K × K),
    pts[2 * j]? = some p → pts[2 * j + 1]? = some q →
    (pairUp pts)[j]? = some (Segment.mk ⟨p.1, p.2, 0⟩ ⟨q.1, q.2, 0⟩) := by
  induction j with
  | zero =>
    intro pts p q hp hq
    match pts, hp, hq with
    | a :: b :: rest, hp, hq =>
      simp at hp hq
      subst hp
      subst hq
      simp [pairUp]
    | [], hp, _ => simp at hp
    | [_], _, hq => simp at hq
  | succ j ih =>
    intro pts p q hp hq
    match pts, hp, hq with
    | a :: b :: rest, hp, hq =>
      have e1 : 2 * (j + 1) = 2 * j + 1 + 1 := by ring
      have e2 : 2 * (j + 1) + 1 = 2 * j + 1 + 1 + 1 := by ring
      rw [e1, List.getElem?_cons_succ, List.getElem?_cons_succ] at hp
      rw [e2, List.getElem?_cons_succ, List.getElem?_cons_succ] at hq
      simp only [pairUp, List.getElem?_cons_succ]
      exact ih rest p q hp hq
    | [], hp, _ => simp at hp
    | [_], hp, _ =>
      have e1 : 2 * (j + 1) = 2 * j + 1 + 1 := by ring
      rw [e1] at hp
      simp at hp

theorem IsBoundingBox.unique {pts : List (K × K)} {a b c d a2 b2 c2 d2 : K}
    (h : IsBoundingBox pts a b c d) (h2 : IsBoundingBox pts a2 b2 c2 d2) :
    a = a2 ∧ b = b2 ∧ c = c2 ∧ d = d2 := by
  obtain ⟨hall, ⟨p1, hp1, e1⟩, ⟨p2, hp2, e2⟩, ⟨p3, hp3, e3⟩, ⟨p4, hp4, e4⟩⟩ := h
  obtain ⟨hall2, ⟨q1, hq1, f1⟩, ⟨q2, hq2, f2⟩, ⟨q3, hq3, f3⟩, ⟨q4, hq4, f4⟩⟩ := h2
  refine ⟨le_antisymm ?_ ?_, le_antisymm ?_ ?_, le_antisymm ?_ ?_, le_antisymm ?_ ?_⟩
  · rw [← f1]; exact (hall q1 hq1).1
  · rw [← e1]; exact (hall2 p1 hp1).1
  · rw [← e2]; exact (hall2 p2 hp2).2.1
  · rw [← f2]; exact (hall q2 hq2).2.1
  · rw [← f3]; exact (hall q3 hq3).2.2.1
  · rw [← e3]; exact (hall2 p3 hp3).2.2.1
  · rw [← e4]; exact (hall2 p4 hp4).2.2.2
  · rw [← f4]; exact (hall q4 hq4).2.2.2

/-- Lines 16-54 on a buffer of `2k` points whose rewritten tail x coordinates
are not the sentinel: the call completes and pushes the `k` segments. -/
theorem setupVAO_flatten (o : Object K) (pts : List (K × K)) (junk : List K) (w : K) (k : Nat)
    (hne : pts ≠ []) (hk : pts.length = 2 * k) (hs : ∀ p ∈ pts, p.1 ≠ 9999)
    (minX maxX minY maxY : K) (hbox : IsBoundingBox pts minX maxX minY maxY)
    (hn : ∀ j p, pts[2 * j]? = some p → w / (maxX - minX) * (p.1 - (minX + maxX) / 2) ≠ 9999) :
    rewriteVertices (flatten pts ++ 9999 :: junk) w
      = some (flatten (pts.map (fun p => (w / (maxX - minX) * (p.1 - (minX + maxX) / 2),
          w / (maxX - minX) * (p.2 - (minY + maxY) / 2)))) ++ 9999 :: junk) ∧
    setupVAO o (flatten pts ++ 9999 :: junk) w
      = some ({ o with segments := o.segments ++ pairUp (pts.map (fun p =>
            (w / (maxX - minX) * (p.1 - (minX + maxX) / 2),
              w / (maxX - minX) * (p.2 - (minY + maxY) / 2)))) },
          flatten (pts.map (fun p => (w / (maxX - minX) * (p.1 - (minX + maxX) / 2),
            w / (maxX - minX) * (p.2 - (minY + maxY) / 2)))) ++ 9999 :: junk) := by
  obtain ⟨mn, mx, hbox2, hrw⟩ := rewriteVertices_flatten junk pts hne hs w
  obtain ⟨e1, e2, e3, e4⟩ := hbox2.unique hbox
  rw [e1, e2, e3, e4] at hrw
  have hn1 : ∀ j p, (pts.map (fun p => (w / (maxX - minX) * (p.1 - (minX + maxX) / 2),
      w / (maxX - minX) * (p.2 - (minY + maxY) / 2))))[2 * j]? = some p → p.1 ≠ 9999 := by
    intro j p hj
    rw [List.getElem?_map] at hj
    cases h0 : pts[2 * j]? with
    | none => simp [h0] at hj
    | some p0 =>
      simp only [h0, Option.map_some', Option.some.injEq] at hj
      subst hj
      exact hn j p0 h0
  have hst := storeSegments_flatten junk k _ o.segments
    (by simpa using hk : (pts.map (fun p => (w / (maxX - minX) * (p.1 - (minX + maxX) / 2),
      w / (maxX - minX) * (p.2 - (minY + maxY) / 2)))).length = 2 * k) hn1
  refine ⟨hrw, ?_⟩
  simp only [setupVAO, hrw, hst]

/-- The bounding box of a shifted point set is the shifted bounding box. -/
theorem IsBoundingBox.map_shift {pts : List (K × K)} {a b c d : K}
    (h : IsBoundingBox pts a b c d) (dx dy : K) :
    IsBoundingBox (pts.map (fun p => (p.1 + dx, p.2 + dy))) (a + dx) (b + dx) (c + dy)
      (d + dy) := by
  obtain ⟨hall, ⟨p1, hp1, e1⟩, ⟨p2, hp2, e2⟩, ⟨p3, hp3, e3⟩, ⟨p4, hp4, e4⟩⟩ := h
  refine ⟨?_, ?_, ?_, ?_, ?_⟩
  · intro q hq
    obtain ⟨p, hp, rfl⟩ := List.mem_map.mp hq
    obtain ⟨h1, h2, h3, h4⟩ := hall p hp
    exact ⟨add_le_add_right h1 dx, add_le_add_right h2 dx, add_le_add_right h3 dy,
      add_le_add_right h4 dy⟩
  · exact ⟨_, List.mem_map.mpr ⟨p1, hp1, rfl⟩, by simp [e1]⟩
  · exact ⟨_, List.mem_map.mpr ⟨p2, hp2, rfl⟩, by simp [e2]⟩
  · exact ⟨_, List.mem_map.mpr ⟨p3, hp3, rfl⟩, by simp [e3]⟩
  · exact ⟨_, List.mem_map.mpr ⟨p4, hp4, rfl⟩, by simp [e4]⟩

/-- Lines 23-48 on a well-formed buffer whose points do not all share one x, with
a positive width: the rewritten points have the bounding box
`[-w/2, w/2] x [minY, maxY]` with `minY + maxY = 0`. -/
theorem rewriteVertices_flatten_box (junk : List K) (pts : List (K × K)) (w : K)
    (hs : ∀ p ∈ pts, p.1 ≠ 9999) (hx : ∃ p ∈ pts, ∃ q ∈ pts, p.1 ≠ q.1) (hw : 0 < w) :
    ∃ (pts1 : List (K × K)) (minY maxY : K),
      rewriteVertices (flatten pts ++ 9999 :: junk) w = some (flatten pts1 ++ 9999 :: junk) ∧
      pts1.length = pts.length ∧
      IsBoundingBox pts1 (-(w / 2)) (w / 2) minY maxY ∧ minY + maxY = 0 := by
  have hne : pts ≠ [] := by
    obtain ⟨p, hp, -⟩ := hx
    exact List.ne_nil_of_mem hp
  obtain ⟨mn, mx, hbox, hrw⟩ := rewriteVertices_flatten junk pts hne hs w
  have hd : 0 < mx.x - mn.x := sub_pos.mpr (hbox.minX_lt_maxX hx)
  have hmap := hbox.map_scale (w / (mx.x - mn.x)) ((mn.x + mx.x) / 2) ((mn.y + mx.y) / 2)
    (div_pos hw hd)
  have e1 : w / (mx.x - mn.x) * (mn.x - (mn.x + mx.x) / 2) = -(w / 2) := by
    field_simp
    ring
  have e2 : w / (mx.x - mn.x) * (mx.x - (mn.x + mx.x) / 2) = w / 2 := by
    field_simp
    ring
  rw [e1, e2] at hmap
  exact ⟨_, _, _, hrw, by simp, hmap, by ring⟩

end SetupLemmas

/-! ## Lemmas on `updatePose` -/

section PoseLemmas

variable {K : Type} [LinearOrderedField K]

theorem updatePose_orientation (m : CMath K) (o : Object K) (deltaT : K) :
    (updatePose m o deltaT).orientation = incrementalRotation m o deltaT * o.orientation := rfl

theorem quaternion_identity_mul (q : quaternion K) : quaternion.identity * q = q := by
  simp [quaternion_mul_def, quaternion.mul, quaternion.identity]

/-- The x coordinate stored by `updatePose`: the two x tests in sequence. -/
theorem updatePose_position_x (m : CMath K) (o : Object K) (deltaT : K) :
    (updatePose m o deltaT).position.x =
      (if (if o.position.x + deltaT * o.velocity.x > o.world.worldMax.x
            then o.position.x + deltaT * o.velocity.x - (o.world.worldMax.x - o.world.worldMin.x)
            else o.position.x + deltaT * o.velocity.x) < o.world.worldMin.x
        then (if o.position.x + deltaT * o.velocity.x > o.world.worldMax.x
            then o.position.x + deltaT * o.velocity.x - (o.world.worldMax.x - o.world.worldMin.x)
            else o.position.x + deltaT * o.velocity.x) + (o.world.worldMax.x - o.world.worldMin.x)
        else (if o.position.x + deltaT * o.velocity.x > o.world.worldMax.x
            then o.position.x + deltaT * o.velocity.x - (o.world.worldMax.x - o.world.worldMin.x)
            else o.position.x + deltaT * o.velocity.x)) := by
  simp only [updatePose, vec3_add_def, vec3_smul_def, vec3.add, vec3.smul]
  split_ifs <;> rfl

/-- The y coordinate stored by `updatePose`: the two y tests in sequence. -/
theorem updatePose_position_y (m : CMath K) (o : Object K) (deltaT : K) :
    (updatePose m o deltaT).position.y =
      (if (if o.position.y + deltaT * o.velocity.y > o.world.worldMax.y
            then o.position.y + deltaT * o.velocity.y - (o.world.worldMax.y - o.world.worldMin.y)
            else o.position.y + deltaT * o.velocity.y) < o.world.worldMin.y
        then (if o.position.y + deltaT * o.velocity.y > o.world.worldMax.y
            then o.position.y + deltaT * o.velocity.y - (o.world.worldMax.y - o.world.worldMin.y)
            else o.position.y + deltaT * o.velocity.y) + (o.world.worldMax.y - o.world.worldMin.y)
        else (if o.position.y + deltaT * o.velocity.y > o.world.worldMax.y
            then o.position.y + deltaT * o.velocity.y - (o.world.worldMax.y - o.world.worldMin.y)
            else o.position.y + deltaT * o.velocity.y)) := by
  simp only [updatePose, vec3_add_def, vec3_smul_def, vec3.add, vec3.smul]
  split_ifs <;> rfl

/-- Two tests in sequence on one coordinate, when `lo < hi`: exactly one of
subtracting the extent, adding the extent, or leaving the value. -/
theorem wrap_once {lo hi : K} (h : lo < hi) (c : K) :
    (hi < c → (if (if c > hi then c - (hi - lo) else c) < lo
        then (if c > hi then c - (hi - lo) else c) + (hi - lo)
        else (if c > hi then c - (hi - lo) else c)) = c - (hi - lo)) ∧
    (c < lo → (if (if c > hi then c - (hi - lo) else c) < lo
        then (if c > hi then c - (hi - lo) else c) + (hi - lo)
        else (if c > hi then c - (hi - lo) else c)) = c + (hi - lo)) ∧
    (lo ≤ c → c ≤ hi → (if (if c > hi then c - (hi - lo) else c) < lo
        then (if c > hi then c - (hi - lo) else c) + (hi - lo)
        else (if c > hi then c - (hi - lo) else c)) = c) := by
  refine ⟨fun h1 => ?_, fun h1 => ?_, fun h1 h2 => ?_⟩
  · rw [if_pos h1, if_neg (by linarith)]
  · rw [if_neg (by linarith : ¬ c > hi), if_pos h1]
  · rw [if_neg (by linarith : ¬ c > hi), if_neg (by linarith)]

/-- The squared norm is multiplicative for the Hamilton product. -/
theorem quaternion_normSq_mul (p q : quaternion K) :
    (p * q).normSq = p.normSq * q.normSq := by
  simp only [quaternion_mul_def, quaternion.mul, quaternion.normSq]
  ring

/-- The angle-axis quaternion about a unit axis is a unit quaternion, given
`cos^2 + sin^2 = 1`. -/
theorem quaternion_normSq_ofAngleAxis (m : CMath K) (angle : K) (axis : vec3 K)
    (hcs : ∀ t, m.cos t * m.cos t + m.sin t * m.sin t = 1)
    (hax : axis.x * axis.x + axis.y * axis.y + axis.z * axis.z = 1) :
    (quaternion.ofAngleAxis m angle axis).normSq = 1 := by
  simp only [quaternion.ofAngleAxis, quaternion.normSq]
  have h := hcs (angle / 2)
  calc m.cos (angle / 2) * m.cos (angle / 2)
        + m.sin (angle / 2) * axis.x * (m.sin (angle / 2) * axis.x)
        + m.sin (angle / 2) * axis.y * (m.sin (angle / 2) * axis.y)
        + m.sin (angle / 2) * axis.z * (m.sin (angle / 2) * axis.z)
      = m.cos (angle / 2) * m.cos (angle / 2) + m.sin (angle / 2) * m.sin (angle / 2)
          * (axis.x * axis.x + axis.y * axis.y + axis.z * axis.z) := by ring
    _ = 1 := by rw [hax, mul_one, h]

/-- The rotation axis that `updatePose` picks is a unit vector in both branches,
given that the square root squares back to its non-negative argument. -/
theorem rotationAxisOf_unit (m : CMath K) (o : Object K)
    (hsqrt : ∀ x, 0 ≤ x → m.sqrt x * m.sqrt x = x) :
    (rotationAxisOf m o).x * (rotationAxisOf m o).x
      + (rotationAxisOf m o).y * (rotationAxisOf m o).y
      + (rotationAxisOf m o).z * (rotationAxisOf m o).z = 1 := by
  unfold rotationAxisOf
  split_ifs with h
  · have hpos : 0 < o.angularVelocity.length m := lt_trans (by norm_num) h
    have hne : o.angularVelocity.length m ≠ 0 := ne_of_gt hpos
    have hsq : o.angularVelocity.length m * o.angularVelocity.length m
        = o.angularVelocity.x * o.angularVelocity.x + o.angularVelocity.y * o.angularVelocity.y
          + o.angularVelocity.z * o.angularVelocity.z := by
      unfold vec3.length
      apply hsqrt
      nlinarith [mul_self_nonneg o.angularVelocity.x, mul_self_nonneg o.angularVelocity.y,
        mul_self_nonneg o.angularVelocity.z]
    simp only [vec3.normalize]
    field_simp
    rw [← hsq]
  · norm_num

/-- Rounding to the nearest integer, once the floor is known. -/
theorem roundHalfEven_eq (q : ℚ) (f : ℤ) (h1 : (f : ℚ) ≤ q) (h2 : q < f + 1) :
    roundHalfEven q =
      if q - f < 1 / 2 then f else if 1 / 2 < q - f then f + 1
      else if f % 2 = 0 then f else f + 1 := by
  have hf : ⌊q⌋ = f := Int.floor_eq_iff.mpr ⟨h1, h2⟩
  simp only [roundHalfEven, hf]

/-- Rounding to binary32, once the binade `2^e <= |x| < 2^(e+1)` is known. -/
theorem round32_eq (x : ℚ) (e : ℤ) (h1 : (2 : ℚ) ^ e ≤ |x|) (h2 : |x| < (2 : ℚ) ^ (e + 1)) :
    round32 x = (roundHalfEven (x / 2 ^ (e - 23)) : ℚ) * 2 ^ (e - 23) := by
  have hpos : 0 < |x| := lt_of_lt_of_le (zpow_pos (by norm_num) e) h1
  have hx : x ≠ 0 := abs_pos.mp hpos
  have hlog : Int.log 2 |x| = e := by
    apply le_antisymm
    · have := (Int.lt_zpow_iff_log_lt (b := 2) (by norm_num) hpos (x := e + 1)).mp
        (by simpa using h2)
      omega
    · exact (Int.zpow_le_iff_le_log (b := 2) (by norm_num) hpos).mp (by simpa using h1)
  simp only [round32, if_neg hx, hlog]

theorem round32_zero : round32 0 = 0 := by simp [round32]

/-- The x coordinate stored in binary32: the two x tests in sequence. -/
theorem updatePosePosition32_x (o : Object ℚ) (deltaT : ℚ) :
    (updatePosePosition32 o deltaT).x =
      (if (if add32 o.position.x (mul32 deltaT o.velocity.x) > o.world.worldMax.x
            then sub32 (add32 o.position.x (mul32 deltaT o.velocity.x))
              (sub32 o.world.worldMax.x o.world.worldMin.x)
            else add32 o.position.x (mul32 deltaT o.velocity.x)) < o.world.worldMin.x
        then add32 (if add32 o.position.x (mul32 deltaT o.velocity.x) > o.world.worldMax.x
            then sub32 (add32 o.position.x (mul32 deltaT o.velocity.x))
              (sub32 o.world.worldMax.x o.world.worldMin.x)
            else add32 o.position.x (mul32 deltaT o.velocity.x))
            (sub32 o.world.worldMax.x o.world.worldMin.x)
        else (if add32 o.position.x (mul32 deltaT o.velocity.x) > o.world.worldMax.x
            then sub32 (add32 o.position.x (mul32 deltaT o.velocity.x))
              (sub32 o.world.worldMax.x o.world.worldMin.x)
            else add32 o.position.x (mul32 deltaT o.velocity.x))) := by
  simp only [updatePosePosition32]
  split_ifs <;> rfl

end PoseLemmas

/-! ## Lemmas on `intersects` -/

section CollisionLemmas

variable {K : Type} [LinearOrderedField K]

/-- The loop of `intersects( Segment )` returns true exactly when some segment
of the list, moved to world space, intersects `seg`. -/
theorem intersectsSegmentLoop_iff (segI : Segment K → Segment K → Bool) (M : mat4 K)
    (seg : Segment K) (segs : List (Segment K)) :
    intersectsSegmentLoop segI M seg segs = true
      ↔ ∃ s ∈ segs, segI (worldSegment M s) seg = true := by
  induction segs with
  | nil => simp [intersectsSegmentLoop]
  | cons s rest ih =>
    by_cases h : segI (worldSegment M s) seg = true
    · simp [intersectsSegmentLoop, h]
    · simp [intersectsSegmentLoop, h, ih]

/-- The loop of `intersects( Object )` returns true exactly when `obj` intersects
some segment of the list, moved to world space. -/
theorem intersectsLoop_iff (segI : Segment K → Segment K → Bool) (M : mat4 K)
    (obj : Object K) (segs : List (Segment K)) :
    intersectsLoop segI M obj segs = true
      ↔ ∃ s ∈ segs, intersectsSegment segI obj (worldSegment M s) = true := by
  induction segs with
  | nil => simp [intersectsLoop]
  | cons s rest ih =>
    by_cases h : intersectsSegment segI obj (worldSegment M s) = true
    · simp [intersectsLoop, h]
    · simp [intersectsLoop, h, ih]

/-- The object test as an existence statement over the two segment lists. -/
theorem intersects_iff_mem (segI : Segment K → Segment K → Bool) (a b : Object K) :
    intersects segI a b = true ↔ ∃ s ∈ a.segments, ∃ t ∈ b.segments,
      segI (worldSegment (modelToWorldTransform b) t)
        (worldSegment (modelToWorldTransform a) s) = true := by
  simp only [intersects, intersectsLoop_iff, intersectsSegment, intersectsSegmentLoop_iff]

theorem foldl_extend_bounds (ps : List (vec3 K)) (b0 : Box K) :
    ((ps.foldl Box.extend b0).minX ≤ b0.minX ∧ b0.maxX ≤ (ps.foldl Box.extend b0).maxX ∧
      (ps.foldl Box.extend b0).minY ≤ b0.minY ∧ b0.maxY ≤ (ps.foldl Box.extend b0).maxY) ∧
    ∀ p ∈ ps, (ps.foldl Box.extend b0).minX ≤ p.x ∧ p.x ≤ (ps.foldl Box.extend b0).maxX ∧
      (ps.foldl Box.extend b0).minY ≤ p.y ∧ p.y ≤ (ps.foldl Box.extend b0).maxY := by
  induction ps generalizing b0 with
  | nil => simp
  | cons q qs ih =>
    obtain ⟨⟨h1, h2, h3, h4⟩, hall⟩ := ih (b0.extend q)
    simp only [Box.extend, le_min_iff, max_le_iff] at h1 h2 h3 h4
    simp only [List.foldl_cons]
    refine ⟨⟨h1.1, h2.1, h3.1, h4.1⟩, ?_⟩
    intro p hp
    rcases List.mem_cons.mp hp with rfl | hp
    · exact ⟨h1.2, h2.2, h3.2, h4.2⟩
    · exact hall p hp

theorem boxOf_bounds {l : List (vec3 K)} {b : Box K} (h : boxOf l = some b) :
    ∀ p ∈ l, b.minX ≤ p.x ∧ p.x ≤ b.maxX ∧ b.minY ≤ p.y ∧ p.y ≤ b.maxY := by
  cases l with
  | nil => simp [boxOf] at h
  | cons q qs =>
    simp only [boxOf, Option.some.injEq] at h
    subst h
    obtain ⟨⟨h1, h2, h3, h4⟩, hall⟩ := foldl_extend_bounds qs ⟨q.x, q.x, q.y, q.y⟩
    intro p hp
    rcases List.mem_cons.mp hp with rfl | hp
    · exact ⟨h1, h2, h3, h4⟩
    · exact hall p hp

theorem boxOf_isSome {l : List (vec3 K)} {p : vec3 K} (h : p ∈ l) : ∃ b, boxOf l = some b := by
  cases l with
  | nil => simp at h
  | cons q qs => exact ⟨_, rfl⟩

omit [LinearOrderedField K] in
theorem mem_endpoints {segs : List (Segment K)} {s : Segment K} (h : s ∈ segs) :
    s.tail ∈ endpoints segs ∧ s.head ∈ endpoints segs := by
  induction segs with
  | nil => simp at h
  | cons t rest ih =>
    rcases List.mem_cons.mp h with rfl | h
    · simp [endpoints]
    · obtain ⟨h1, h2⟩ := ih h
      simp [endpoints, h1, h2]

theorem between_of_convex {lo hi u v a : K} (hu : lo ≤ u ∧ u ≤ hi) (hv : lo ≤ v ∧ v ≤ hi)
    (ha0 : 0 ≤ a) (ha1 : a ≤ 1) : lo ≤ u + a * (v - u) ∧ u + a * (v - u) ≤ hi := by
  have e : u + a * (v - u) = (1 - a) * u + a * v := by ring
  have h1 : 0 ≤ 1 - a := by linarith
  constructor
  · have := mul_nonneg h1 (sub_nonneg.mpr hu.1)
    have := mul_nonneg ha0 (sub_nonneg.mpr hv.1)
    nlinarith
  · have := mul_nonneg h1 (sub_nonneg.mpr hu.2)
    have := mul_nonneg ha0 (sub_nonneg.mpr hv.2)
    nlinarith

theorem not_sharePoint_of_disjoint {s t : Segment K} {A B : Box K}
    (hs1 : A.minX ≤ s.tail.x ∧ s.tail.x ≤ A.maxX ∧ A.minY ≤ s.tail.y ∧ s.tail.y ≤ A.maxY)
    (hs2 : A.minX ≤ s.head.x ∧ s.head.x ≤ A.maxX ∧ A.minY ≤ s.head.y ∧ s.head.y ≤ A.maxY)
    (ht1 : B.minX ≤ t.tail.x ∧ t.tail.x ≤ B.maxX ∧ B.minY ≤ t.tail.y ∧ t.tail.y ≤ B.maxY)
    (ht2 : B.minX ≤ t.head.x ∧ t.head.x ≤ B.maxX ∧ B.minY ≤ t.head.y ∧ t.head.y ≤ B.maxY)
    (hd : A.disjoint B) : ¬ SharePoint s t := by
  rintro ⟨a, b, ha0, ha1, hb0, hb1, ex, ey⟩
  have sx := between_of_convex ⟨hs1.1, hs1.2.1⟩ ⟨hs2.1, hs2.2.1⟩ ha0 ha1
  have sy := between_of_convex ⟨hs1.2.2.1, hs1.2.2.2⟩ ⟨hs2.2.2.1, hs2.2.2.2⟩ ha0 ha1
  have tx := between_of_convex ⟨ht1.1, ht1.2.1⟩ ⟨ht2.1, ht2.2.1⟩ hb0 hb1
  have ty := between_of_convex ⟨ht1.2.2.1, ht1.2.2.2⟩ ⟨ht2.2.2.1, ht2.2.2.2⟩ hb0 hb1
  rw [ex] at sx
  rw [ey] at sy
  rcases hd with h | h | h | h
  · linarith [sx.2, tx.1]
  · linarith [sx.1, tx.2]
  · linarith [sy.2, ty.1]
  · linarith [sy.1, ty.2]

/-- The modelled primitive is symmetric. -/
theorem segmentIntersects_comm (s t : Segment K) :
    segmentIntersects s t = segmentIntersects t s := by
  rw [Bool.eq_iff_iff]
  simp only [segmentIntersects, Bool.and_eq_true, decide_eq_true_eq]
  have hden : (t.head.x - t.tail.x) * (s.head.y - s.tail.y)
      - (t.head.y - t.tail.y) * (s.head.x - s.tail.x)
      = -((s.head.x - s.tail.x) * (t.head.y - t.tail.y)
      - (s.head.y - s.tail.y) * (t.head.x - t.tail.x)) := by ring
  have h1 : (s.tail.x - t.tail.x) * (s.head.y - s.tail.y)
      - (s.tail.y - t.tail.y) * (s.head.x - s.tail.x)
      = -((t.tail.x - s.tail.x) * (s.head.y - s.tail.y)
      - (t.tail.y - s.tail.y) * (s.head.x - s.tail.x)) := by ring
  have h2 : (s.tail.x - t.tail.x) * (t.head.y - t.tail.y)
      - (s.tail.y - t.tail.y) * (t.head.x - t.tail.x)
      = -((t.tail.x - s.tail.x) * (t.head.y - t.tail.y)
      - (t.tail.y - s.tail.y) * (t.head.x - t.tail.x)) := by ring
  rw [hden, h1, h2, neg_div_neg_eq, neg_div_neg_eq, neg_ne_zero]
  tauto

/-- The modelled primitive is true only for segments that share a point. -/
theorem segmentIntersects_sharePoint (s t : Segment K) (h : segmentIntersects s t = true) :
    SharePoint s t := by
  simp only [segmentIntersects, Bool.and_eq_true, decide_eq_true_eq] at h
  obtain ⟨⟨⟨⟨hden, ha0⟩, ha1⟩, hb0⟩, hb1⟩ := h
  refine ⟨_, _, ha0, ha1, hb0, hb1, ?_, ?_⟩
  · field_simp
    ring
  · field_simp
    ring

end CollisionLemmas

/-! ## The claims -/

section Claims

variable {K : Type} [LinearOrderedField K]

/-- C1. Shape normalisation in `Object::setupVAO`, in exact arithmetic: for a
sentinel-terminated vertex array with at least one pair, no coordinate equal to
9999, points that do not all share one x coordinate (`maxX != minX`) and
`objectWidth > 0`, the in-place rewrite (lines 23-48) completes, rewrites every
pair and leaves the sentinel and whatever follows it in place, and the
axis-aligned bounding box of the rewritten points spans exactly
`[-objectWidth/2, +objectWidth/2]` in x and has its centre at `(0, 0)`. -/
theorem setupVAO_normalises_bounding_box (pts : List (K × K)) (junk : List K)
    (objectWidth : K) (hne : pts ≠ [])
    (hs : ∀ p ∈ pts, p.1 ≠ 9999 ∧ p.2 ≠ 9999)
    (hx : ∃ p ∈ pts, ∃ q ∈ pts, p.1 ≠ q.1) (hw : 0 < objectWidth) :
    ∃ (pts1 : List (K × K)) (minY maxY : K),
      rewriteVertices (flatten pts ++ 9999 :: junk) objectWidth
        = some (flatten pts1 ++ 9999 :: junk) ∧
      pts1.length = pts.length ∧
      IsBoundingBox pts1 (-(objectWidth / 2)) (objectWidth / 2) minY maxY ∧
      objectWidth / 2 - -(objectWidth / 2) = objectWidth ∧
      (-(objectWidth / 2) + objectWidth / 2) / 2 = 0 ∧ (minY + maxY) / 2 = 0 := by
  obtain ⟨mn, mx, hbox, hrw⟩ :=
    rewriteVertices_flatten junk pts hne (fun p hp => (hs p hp).1) objectWidth
  have hlt : mn.x < mx.x := hbox.minX_lt_maxX hx
  have hd : 0 < mx.x - mn.x := sub_pos.mpr hlt
  have hspos : 0 < objectWidth / (mx.x - mn.x) := div_pos hw hd
  have hmap := hbox.map_scale (objectWidth / (mx.x - mn.x)) ((mn.x + mx.x) / 2)
    ((mn.y + mx.y) / 2) hspos
  have e1 : objectWidth / (mx.x - mn.x) * (mn.x - (mn.x + mx.x) / 2) = -(objectWidth / 2) := by
    field_simp
    ring
  have e2 : objectWidth / (mx.x - mn.x) * (mx.x - (mn.x + mx.x) / 2) = objectWidth / 2 := by
    field_simp
    ring
  rw [e1, e2] at hmap
  refine ⟨_, _, _, hrw, by simp, hmap, by ring, by ring, by ring⟩

/-- Witness for C1: the triangle `(0,0), (4,2), (1,5)` with `objectWidth = 2`. -/
theorem setupVAO_normalises_bounding_box_witness :
    ∃ (pts1 : List (ℚ × ℚ)) (minY maxY : ℚ),
      rewriteVertices (flatten [((0 : ℚ), (0 : ℚ)), (4, 2), (1, 5)] ++ 9999 :: []) 2
        = some (flatten pts1 ++ 9999 :: []) ∧
      pts1.length = [((0 : ℚ), (0 : ℚ)), (4, 2), (1, 5)].length ∧
      IsBoundingBox pts1 (-((2 : ℚ) / 2)) ((2 : ℚ) / 2) minY maxY ∧
      (2 : ℚ) / 2 - -((2 : ℚ) / 2) = 2 ∧
      (-((2 : ℚ) / 2) + (2 : ℚ) / 2) / 2 = 0 ∧ (minY + maxY) / 2 = 0 :=
  setupVAO_normalises_bounding_box [((0 : ℚ), (0 : ℚ)), (4, 2), (1, 5)] [] 2 (by simp)
    (by simp) ⟨(0, 0), by simp, (4, 2), by simp, by norm_num⟩ (by norm_num)

/-- C2. `Object::modelToWorldTransform` returns
`T(position) * R(orientation) * S(scaleFactor, scaleFactor, 1)`; with the
identity orientation the local point `(x, y, z)` maps to
`(scaleFactor*x + position.x, scaleFactor*y + position.y, z + position.z)`; for
`position = (2,0,0)`, identity orientation and `scaleFactor = 2` the local point
`(1,0,0)` maps to `(4,0,0)` and not to `(6,0,0)`. -/
theorem modelToWorldTransform_scale_rotate_translate (o : Object K) :
    modelToWorldTransform o
        = translate o.position * o.orientation.toMatrix * scale o.scaleFactor o.scaleFactor 1 ∧
    (∀ x y z : K,
      (modelToWorldTransform { o with orientation := quaternion.identity }
          * vec4.ofVec3 ⟨x, y, z⟩).toVec3
        = ⟨o.scaleFactor * x + o.position.x, o.scaleFactor * y + o.position.y,
            z + o.position.z⟩) ∧
    (modelToWorldTransform
          { o with position := ⟨2, 0, 0⟩, orientation := quaternion.identity, scaleFactor := 2 }
        * vec4.ofVec3 (⟨1, 0, 0⟩ : vec3 K)).toVec3 = (⟨4, 0, 0⟩ : vec3 K) ∧
    (modelToWorldTransform
          { o with position := ⟨2, 0, 0⟩, orientation := quaternion.identity, scaleFactor := 2 }
        * vec4.ofVec3 (⟨1, 0, 0⟩ : vec3 K)).toVec3 ≠ (⟨6, 0, 0⟩ : vec3 K) := by
  refine ⟨rfl, ?_, ?_, ?_⟩
  · intro x y z
    simp only [modelToWorldTransform, quaternion.identity, quaternion.toMatrix, scale, translate,
      mat4_mul_def, mat4_mulVec_def, mat4.mul, mat4.mulVec, vec4.dot, mat4.c0, mat4.c1, mat4.c2,
      mat4.c3, vec4.ofVec3, vec4.toVec3]
    simp [add_comm]
  · simp only [modelToWorldTransform, quaternion.identity, quaternion.toMatrix, scale, translate,
      mat4_mul_def, mat4_mulVec_def, mat4.mul, mat4.mulVec, vec4.dot, mat4.c0, mat4.c1, mat4.c2,
      mat4.c3, vec4.ofVec3, vec4.toVec3]
    simp
    norm_num
  · simp only [modelToWorldTransform, quaternion.identity, quaternion.toMatrix, scale, translate,
      mat4_mul_def, mat4_mulVec_def, mat4.mul, mat4.mulVec, vec4.dot, mat4.c0, mat4.c1, mat4.c2,
      mat4.c3, vec4.ofVec3, vec4.toVec3]
    simp
    norm_num

/-- C3, as stated, fails in the `float` arithmetic of the code.  In binary32, with
`worldMin.x = -(3.5 + 2^-22)`, `worldMax.x = 0.5 + 2^-24` and an object at rest at
`x = 0.5 + 2^-23` (all three are binary32 numbers, and `worldMin < worldMax`), the
coordinate before the tests is `c = 0.5 + 2^-23 > worldMax.x`.  The extent
`worldMax.x - worldMin.x` rounds to `4 + 2^-21`, and `c - W` rounds to
`-(3.5 + 2^-21)`, which is below `worldMin.x`; the second test fires as well and
the stored coordinate is `0.5`: two corrections, and neither the rounded nor the
exact `c - W`. -/
theorem updatePose_binary32_corrects_twice :
    (round32 wrapTwiceObject.position.x = wrapTwiceObject.position.x ∧
      round32 wrapTwiceObject.world.worldMin.x = wrapTwiceObject.world.worldMin.x ∧
      round32 wrapTwiceObject.world.worldMax.x = wrapTwiceObject.world.worldMax.x) ∧
    wrapTwiceObject.world.worldMin.x < wrapTwiceObject.world.worldMax.x ∧
    add32 wrapTwiceObject.position.x (mul32 1 wrapTwiceObject.velocity.x)
      = 1 / 2 + 1 / 2 ^ 23 ∧
    wrapTwiceObject.world.worldMax.x < 1 / 2 + 1 / 2 ^ 23 ∧
    sub32 wrapTwiceObject.world.worldMax.x wrapTwiceObject.world.worldMin.x
      = 4 + 1 / 2 ^ 21 ∧
    sub32 (1 / 2 + 1 / 2 ^ 23) (4 + 1 / 2 ^ 21) = -(7 / 2 + 1 / 2 ^ 21) ∧
    -(7 / 2 + 1 / 2 ^ 21) < wrapTwiceObject.world.worldMin.x ∧
    (updatePosePosition32 wrapTwiceObject 1).x = 1 / 2 ∧
    (updatePosePosition32 wrapTwiceObject 1).x
      ≠ sub32 (1 / 2 + 1 / 2 ^ 23)
          (sub32 wrapTwiceObject.world.worldMax.x wrapTwiceObject.world.worldMin.x) ∧
    (updatePosePosition32 wrapTwiceObject 1).x
      ≠ 1 / 2 + 1 / 2 ^ 23
          - (wrapTwiceObject.world.worldMax.x - wrapTwiceObject.world.worldMin.x) := by
  have hc : round32 (1 / 2 + 1 / 2 ^ 23) = 1 / 2 + 1 / 2 ^ 23 := by
    rw [round32_eq _ (-1) (by norm_num [abs_of_pos]) (by norm_num [abs_of_pos]),
      roundHalfEven_eq _ 8388610 (by norm_num) (by norm_num)]
    norm_num
  have hmin : round32 (-(7 / 2 + 1 / 2 ^ 22)) = -(7 / 2 + 1 / 2 ^ 22) := by
    rw [round32_eq _ 1 (by norm_num [abs_of_pos]) (by norm_num [abs_of_pos]),
      roundHalfEven_eq _ (-14680065) (by norm_num) (by norm_num)]
    norm_num
  have hmax : round32 (1 / 2 + 1 / 2 ^ 24) = 1 / 2 + 1 / 2 ^ 24 := by
    rw [round32_eq _ (-1) (by norm_num [abs_of_pos]) (by norm_num [abs_of_pos]),
      roundHalfEven_eq _ 8388609 (by norm_num) (by norm_num)]
    norm_num
  have hw : round32 (1 / 2 + 1 / 2 ^ 24 - -(7 / 2 + 1 / 2 ^ 22)) = 4 + 1 / 2 ^ 21 := by
    rw [round32_eq _ 2 (by norm_num [abs_of_pos]) (by norm_num [abs_of_pos]),
      roundHalfEven_eq _ 8388608 (by norm_num) (by norm_num)]
    norm_num
  have hs : round32 (1 / 2 + 1 / 2 ^ 23 - (4 + 1 / 2 ^ 21)) = -(7 / 2 + 1 / 2 ^ 21) := by
    rw [round32_eq _ 1 (by norm_num [abs_of_neg]) (by norm_num [abs_of_neg]),
      roundHalfEven_eq _ (-14680066) (by norm_num) (by norm_num)]
    norm_num
  have ha : round32 (1 / 2) = 1 / 2 := by
    rw [round32_eq _ (-1) (by norm_num [abs_of_pos]) (by norm_num [abs_of_pos]),
      roundHalfEven_eq _ 8388608 (by norm_num) (by norm_num)]
    norm_num
  have hx : (updatePosePosition32 wrapTwiceObject 1).x = 1 / 2 := by
    rw [updatePosePosition32_x]
    simp only [wrapTwiceObject, exampleObject, add32, sub32, mul32, mul_zero, round32_zero,
      add_zero, hc, hw, hs]
    norm_num [ha]
  refine ⟨⟨hc, hmin, hmax⟩, ?_, ?_, ?_, ?_, hs, ?_, hx, ?_, ?_⟩
  · norm_num [wrapTwiceObject]
  · simp only [wrapTwiceObject, exampleObject, add32, mul32, mul_zero, round32_zero, add_zero, hc]
  · norm_num [wrapTwiceObject]
  · simp only [wrapTwiceObject, sub32, hw]
  · norm_num [wrapTwiceObject]
  · rw [hx]
    simp only [wrapTwiceObject, sub32, hw, hs]
    norm_num
  · rw [hx]
    norm_num [wrapTwiceObject]

/-- C3, amended. Wrap-around in `Object::updatePose`, in exact arithmetic: on an
axis with `worldMin < worldMax` and extent `W = worldMax - worldMin`, with
`c = position + deltaT * velocity` the coordinate before the tests, the stored
coordinate is `c - W` if `c > worldMax`, `c + W` if `c < worldMin` and `c` if
`worldMin <= c <= worldMax`.  The x result is a function of the x data only and
the y result of the y data only, and each receives at most one correction. -/
theorem updatePose_wraps_each_axis_once (m : CMath K) (o : Object K) (deltaT : K) :
    (o.world.worldMin.x < o.world.worldMax.x →
      (o.world.worldMax.x < o.position.x + deltaT * o.velocity.x →
        (updatePose m o deltaT).position.x
          = o.position.x + deltaT * o.velocity.x - (o.world.worldMax.x - o.world.worldMin.x)) ∧
      (o.position.x + deltaT * o.velocity.x < o.world.worldMin.x →
        (updatePose m o deltaT).position.x
          = o.position.x + deltaT * o.velocity.x + (o.world.worldMax.x - o.world.worldMin.x)) ∧
      (o.world.worldMin.x ≤ o.position.x + deltaT * o.velocity.x →
        o.position.x + deltaT * o.velocity.x ≤ o.world.worldMax.x →
        (updatePose m o deltaT).position.x = o.position.x + deltaT * o.velocity.x)) ∧
    (o.world.worldMin.y < o.world.worldMax.y →
      (o.world.worldMax.y < o.position.y + deltaT * o.velocity.y →
        (updatePose m o deltaT).position.y
          = o.position.y + deltaT * o.velocity.y - (o.world.worldMax.y - o.world.worldMin.y)) ∧
      (o.position.y + deltaT * o.velocity.y < o.world.worldMin.y →
        (updatePose m o deltaT).position.y
          = o.position.y + deltaT * o.velocity.y + (o.world.worldMax.y - o.world.worldMin.y)) ∧
      (o.world.worldMin.y ≤ o.position.y + deltaT * o.velocity.y →
        o.position.y + deltaT * o.velocity.y ≤ o.world.worldMax.y →
        (updatePose m o deltaT).position.y = o.position.y + deltaT * o.velocity.y)) := by
  refine ⟨fun h => ?_, fun h => ?_⟩
  · rw [updatePose_position_x]
    exact wrap_once h _
  · rw [updatePose_position_y]
    exact wrap_once h _

/-- Witness for the amended C3: in the world `[-1, 1] x [-1, 1]` an object at `(1.01, 0)`
with zero velocity ends at `(-0.99, 0)` after a step, and an object at `(0.5, 0)`
stays at `(0.5, 0)`. -/
theorem updatePose_wraps_each_axis_once_witness :
    ((updatePose (⟨Real.sqrt, Real.cos, Real.sin⟩ : CMath ℝ)
        { exampleObject ℝ with position := ⟨101 / 100, 0, 0⟩ } 1).position.x = -99 / 100 ∧
     (updatePose (⟨Real.sqrt, Real.cos, Real.sin⟩ : CMath ℝ)
        { exampleObject ℝ with position := ⟨101 / 100, 0, 0⟩ } 1).position.y = 0) ∧
    ((updatePose (⟨Real.sqrt, Real.cos, Real.sin⟩ : CMath ℝ)
        { exampleObject ℝ with position := ⟨1 / 2, 0, 0⟩ } 1).position.x = 1 / 2 ∧
     (updatePose (⟨Real.sqrt, Real.cos, Real.sin⟩ : CMath ℝ)
        { exampleObject ℝ with position := ⟨1 / 2, 0, 0⟩ } 1).position.y = 0) := by
  have h1 := updatePose_wraps_each_axis_once (⟨Real.sqrt, Real.cos, Real.sin⟩ : CMath ℝ)
    { exampleObject ℝ with position := ⟨101 / 100, 0, 0⟩ } 1
  have h2 := updatePose_wraps_each_axis_once (⟨Real.sqrt, Real.cos, Real.sin⟩ : CMath ℝ)
    { exampleObject ℝ with position := ⟨1 / 2, 0, 0⟩ } 1
  simp only [exampleObject] at h1 h2 ⊢
  refine ⟨⟨?_, ?_⟩, ⟨?_, ?_⟩⟩
  · rw [(h1.1 (by norm_num)).1 (by norm_num)]
    norm_num
  · rw [(h1.2 (by norm_num)).2.2 (by norm_num) (by norm_num)]
    norm_num
  · rw [(h2.1 (by norm_num)).2.2 (by norm_num) (by norm_num)]
    norm_num
  · rw [(h2.2 (by norm_num)).2.2 (by norm_num) (by norm_num)]
    norm_num

/-- C4. Collision symmetry: for any two objects `a` and `b`,
`a.intersects(b) == b.intersects(a)`, given that the primitive
`Segment::intersects` is symmetric in its two arguments. -/
theorem intersects_symm (segI : Segment K → Segment K → Bool) (a b : Object K)
    (hsymm : ∀ s t, segI s t = segI t s) :
    intersects segI a b = intersects segI b a := by
  rw [Bool.eq_iff_iff, intersects_iff_mem, intersects_iff_mem]
  constructor
  · rintro ⟨s, hs, t, ht, h⟩
    exact ⟨t, ht, s, hs, by rw [hsymm]; exact h⟩
  · rintro ⟨s, hs, t, ht, h⟩
    exact ⟨t, ht, s, hs, by rw [hsymm]; exact h⟩

/-- Witness for C4: the modelled primitive is symmetric; the two objects are
the crossing diagonals `(0,0)-(2,2)` and `(0,2)-(2,0)`, which intersect. -/
theorem intersects_symm_witness :
    intersects segmentIntersects
        ({ exampleObject ℚ with segments := [⟨⟨0, 0, 0⟩, ⟨2, 2, 0⟩⟩] } : Object ℚ)
        { exampleObject ℚ with segments := [⟨⟨0, 2, 0⟩, ⟨2, 0, 0⟩⟩] }
      = intersects segmentIntersects
        ({ exampleObject ℚ with segments := [⟨⟨0, 2, 0⟩, ⟨2, 0, 0⟩⟩] } : Object ℚ)
        { exampleObject ℚ with segments := [⟨⟨0, 0, 0⟩, ⟨2, 2, 0⟩⟩] } :=
  intersects_symm segmentIntersects _ _ segmentIntersects_comm

/-- C5. For `angularVelocity = (0,0,0)`, every `deltaT` and every starting
orientation, `Object::updatePose` leaves the orientation unchanged: the
zero-speed branch picks the z-axis, the incremental quaternion for the angle
`deltaT * 0` is the identity quaternion, and `identity * orientation =
orientation`.  The facts used about the math library are `sqrt 0 = 0`,
`cos 0 = 1` and `sin 0 = 0`. -/
theorem updatePose_zero_angularVelocity (m : CMath K) (o : Object K) (deltaT : K)
    (hsqrt : m.sqrt 0 = 0) (hcos : m.cos 0 = 1) (hsin : m.sin 0 = 0)
    (hav : o.angularVelocity = ⟨0, 0, 0⟩) :
    rotationAxisOf m o = ⟨0, 0, 1⟩ ∧
    incrementalRotation m o deltaT = quaternion.identity ∧
    (updatePose m o deltaT).orientation = incrementalRotation m o deltaT * o.orientation ∧
    (updatePose m o deltaT).orientation = o.orientation := by
  have hlen : o.angularVelocity.length m = 0 := by simp [vec3.length, hav, hsqrt]
  have hax : rotationAxisOf m o = ⟨0, 0, 1⟩ := by simp [rotationAxisOf, hlen]
  have hq : incrementalRotation m o deltaT = quaternion.identity := by
    simp [incrementalRotation, hax, hlen, quaternion.ofAngleAxis, hcos, hsin,
      quaternion.identity]
  refine ⟨hax, hq, rfl, ?_⟩
  rw [updatePose_orientation, hq, quaternion_identity_mul]

/-- Witness for C5: over the reals with the real square root, cosine and sine,
an object with zero angular velocity and a step of 1/60. -/
theorem updatePose_zero_angularVelocity_witness :
    rotationAxisOf (⟨Real.sqrt, Real.cos, Real.sin⟩ : CMath ℝ) (exampleObject ℝ) = ⟨0, 0, 1⟩ ∧
    incrementalRotation (⟨Real.sqrt, Real.cos, Real.sin⟩ : CMath ℝ) (exampleObject ℝ) (1 / 60)
      = quaternion.identity ∧
    (updatePose (⟨Real.sqrt, Real.cos, Real.sin⟩ : CMath ℝ) (exampleObject ℝ) (1 / 60)).orientation
      = incrementalRotation (⟨Real.sqrt, Real.cos, Real.sin⟩ : CMath ℝ) (exampleObject ℝ) (1 / 60)
          * (exampleObject ℝ).orientation ∧
    (updatePose (⟨Real.sqrt, Real.cos, Real.sin⟩ : CMath ℝ) (exampleObject ℝ) (1 / 60)).orientation
      = (exampleObject ℝ).orientation :=
  updatePose_zero_angularVelocity _ _ _ Real.sqrt_zero Real.cos_zero Real.sin_zero rfl

/-- C6, as stated, fails: over the reals with the real square root, cosine and
sine, the object with `angularVelocity = (0.00005, 0, 0)` (length 0.00005, at
most 0.0001) and the identity orientation takes the fallback z-axis, and after
`updatePose(1)` its orientation is the rotation by the angle 0.00005 about z,
which is not the orientation before the call. -/
theorem updatePose_near_zero_changes_orientation :
    vec3.length (⟨Real.sqrt, Real.cos, Real.sin⟩ : CMath ℝ)
        ({ exampleObject ℝ with angularVelocity := ⟨1 / 20000, 0, 0⟩ } : Object ℝ).angularVelocity
      ≤ 1 / 10000 ∧
    rotationAxisOf (⟨Real.sqrt, Real.cos, Real.sin⟩ : CMath ℝ)
        { exampleObject ℝ with angularVelocity := ⟨1 / 20000, 0, 0⟩ } = ⟨0, 0, 1⟩ ∧
    (updatePose (⟨Real.sqrt, Real.cos, Real.sin⟩ : CMath ℝ)
        { exampleObject ℝ with angularVelocity := ⟨1 / 20000, 0, 0⟩ } 1).orientation
      ≠ ({ exampleObject ℝ with angularVelocity := ⟨1 / 20000, 0, 0⟩ } : Object ℝ).orientation := by
  have hlen : Real.sqrt (1 / 20000 * (1 / 20000) + 0 * 0 + 0 * 0) = 1 / 20000 := by
    rw [mul_zero, add_zero, add_zero]
    exact Real.sqrt_mul_self (by norm_num)
  have hsin : 0 < Real.sin (1 / 20000 / 2) :=
    Real.sin_pos_of_pos_of_lt_pi (by norm_num) (by linarith [Real.pi_gt_three])
  refine ⟨?_, ?_, ?_⟩
  · simp only [vec3.length, hlen]
    norm_num
  · simp only [rotationAxisOf, vec3.length, exampleObject, hlen]
    norm_num
  · intro h
    have h3 := congrArg quaternion.q3 h
    simp only [updatePose, vec3.length, hlen, exampleObject, quaternion_mul_def, quaternion.mul,
      quaternion.ofAngleAxis, quaternion.identity] at h3
    norm_num at h3
    linarith

/-- C6, amended. For every `angularVelocity` whose length is at most 0.0001 and
every `deltaT`, `Object::updatePose` falls back to the z-axis and left-multiplies
the orientation by the rotation of angle `deltaT * |angularVelocity|` about z.
That rotation is the identity, and the orientation is unchanged, when the angle
`deltaT * |angularVelocity|` is zero (given `cos 0 = 1` and `sin 0 = 0`). -/
theorem updatePose_near_zero_rotates_about_z (m : CMath K) (o : Object K) (deltaT : K)
    (hlen : o.angularVelocity.length m ≤ 1 / 10000) :
    rotationAxisOf m o = ⟨0, 0, 1⟩ ∧
    (updatePose m o deltaT).orientation
      = quaternion.ofAngleAxis m (deltaT * o.angularVelocity.length m) ⟨0, 0, 1⟩
          * o.orientation ∧
    (m.cos 0 = 1 → m.sin 0 = 0 → deltaT * o.angularVelocity.length m = 0 →
      (updatePose m o deltaT).orientation = o.orientation) := by
  have hax : rotationAxisOf m o = ⟨0, 0, 1⟩ := by
    simp only [rotationAxisOf, if_neg (not_lt.mpr hlen)]
  have hor : (updatePose m o deltaT).orientation
      = quaternion.ofAngleAxis m (deltaT * o.angularVelocity.length m) ⟨0, 0, 1⟩
          * o.orientation := by
    rw [updatePose_orientation, incrementalRotation, hax]
  refine ⟨hax, hor, fun hcos hsin hzero => ?_⟩
  rw [hor, hzero]
  have hq : quaternion.ofAngleAxis m 0 (⟨0, 0, 1⟩ : vec3 K) = quaternion.identity := by
    simp [quaternion.ofAngleAxis, hcos, hsin, quaternion.identity]
  rw [hq, quaternion_identity_mul]

/-- Witness for the amended C6: over the reals, `angularVelocity = (0.00005, 0, 0)`
and a step of length 0. -/
theorem updatePose_near_zero_rotates_about_z_witness :
    rotationAxisOf (⟨Real.sqrt, Real.cos, Real.sin⟩ : CMath ℝ)
        { exampleObject ℝ with angularVelocity := ⟨1 / 20000, 0, 0⟩ } = ⟨0, 0, 1⟩ ∧
    (updatePose (⟨Real.sqrt, Real.cos, Real.sin⟩ : CMath ℝ)
        { exampleObject ℝ with angularVelocity := ⟨1 / 20000, 0, 0⟩ } 0).orientation
      = ({ exampleObject ℝ with angularVelocity := ⟨1 / 20000, 0, 0⟩ } : Object ℝ).orientation := by
  have hlen : Real.sqrt (1 / 20000 * (1 / 20000) + 0 * 0 + 0 * 0) = 1 / 20000 := by
    rw [mul_zero, add_zero, add_zero]
    exact Real.sqrt_mul_self (by norm_num)
  have h := updatePose_near_zero_rotates_about_z (⟨Real.sqrt, Real.cos, Real.sin⟩ : CMath ℝ)
    { exampleObject ℝ with angularVelocity := ⟨1 / 20000, 0, 0⟩ } 0
    (by simp only [vec3.length, hlen]; norm_num)
  exact ⟨h.1, h.2.2 Real.cos_zero Real.sin_zero (zero_mul _)⟩

/-- C7, as stated, fails: the two points `(1,0)` and `(1,5)` share their x
coordinate, and `setupVAO` with `objectWidth = 2` signals no error: it returns
normally with one segment stored and the vertex buffer rewritten. -/
theorem setupVAO_degenerate_not_rejected :
    (∀ p ∈ [((1 : ℚ), (0 : ℚ)), (1, 5)], ∀ q ∈ [((1 : ℚ), (0 : ℚ)), (1, 5)], p.1 = q.1) ∧
    ∃ r, setupVAO (exampleObject ℚ) (flatten [((1 : ℚ), (0 : ℚ)), (1, 5)] ++ 9999 :: []) 2 = some r
      ∧ r.1.segments.length = 1 ∧ r.2 ≠ flatten [((1 : ℚ), (0 : ℚ)), (1, 5)] ++ 9999 :: [] := by
  constructor
  · simp
  · norm_num [setupVAO, rewriteVertices, boundingBox, boundingBoxLoop, rewriteLoop, storeSegments,
      flatten, modelToOriginTransform, scale, translate, mat4_mul_def, mat4_mulVec_def, mat4.mul,
      mat4.mulVec, vec4.dot, mat4.c0, mat4.c1, mat4.c2, mat4.c3, exampleObject]

/-- C7, amended. `Object::setupVAO` has no error path for degenerate shapes: for
a vertex array of `2k` points (`k >= 1`, no coordinate equal to 9999) that all
share the same x coordinate, the call runs to completion and pushes `k`
segments.  (In the exact model every rewritten x coordinate is `s * (x - x)`
whatever the scale `s = objectWidth / 0` is, so no rewritten x is mistaken for
the sentinel; in float arithmetic the rewritten values are NaN, which also differ
from 9999.) -/
theorem setupVAO_degenerate_completes (o : Object K) (pts : List (K × K)) (junk : List K)
    (objectWidth : K) (k : Nat) (hk : pts.length = 2 * k) (hk1 : 0 < k)
    (hs : ∀ p ∈ pts, p.1 ≠ 9999 ∧ p.2 ≠ 9999)
    (hdeg : ∀ p ∈ pts, ∀ q ∈ pts, p.1 = q.1) :
    ∃ r, setupVAO o (flatten pts ++ 9999 :: junk) objectWidth = some r ∧
      r.1.segments.length = o.segments.length + k := by
  have hne : pts ≠ [] := by
    intro h
    rw [h] at hk
    simp only [List.length_nil] at hk
    omega
  have hs1 : ∀ p ∈ pts, p.1 ≠ 9999 := fun p hp => (hs p hp).1
  obtain ⟨mn, mx, hbox, -⟩ := rewriteVertices_flatten junk pts hne hs1 objectWidth
  obtain ⟨p1, hp1, e1⟩ := hbox.2.1
  obtain ⟨p2, hp2, e2⟩ := hbox.2.2.1
  have hn : ∀ j p, pts[2 * j]? = some p →
      objectWidth / (mx.x - mn.x) * (p.1 - (mn.x + mx.x) / 2) ≠ 9999 := by
    intro j p hj
    have hp : p ∈ pts := List.getElem?_mem hj
    have h1 : mn.x = p.1 := by rw [← e1]; exact hdeg p1 hp1 p hp
    have h2 : mx.x = p.1 := by rw [← e2]; exact hdeg p2 hp2 p hp
    have hz : p.1 - (mn.x + mx.x) / 2 = 0 := by rw [h1, h2]; ring
    rw [hz, mul_zero]
    norm_num
  obtain ⟨-, hset⟩ := setupVAO_flatten o pts junk objectWidth k hne hk hs1 mn.x mx.x mn.y mx.y
    hbox hn
  refine ⟨_, hset, ?_⟩
  simp only [List.length_append]
  rw [pairUp_length k _ (by simpa using hk)]

/-- Witness for the amended C7: the points `(1,0)` and `(1,5)`, `objectWidth = 2`. -/
theorem setupVAO_degenerate_completes_witness :
    ∃ r, setupVAO (exampleObject ℚ) (flatten [((1 : ℚ), (0 : ℚ)), (1, 5)] ++ 9999 :: []) 2
        = some r ∧
      r.1.segments.length = (exampleObject ℚ).segments.length + 1 :=
  setupVAO_degenerate_completes (exampleObject ℚ) [((1 : ℚ), (0 : ℚ)), (1, 5)] [] 2 1 (by simp)
    (by norm_num) (by simp) (by simp)

/-- C8, as stated, fails: for the two points `(1,0)` and `(0,0)` (one segment,
no input coordinate equal to 9999, `maxX = 1`, `minX = 0`) and
`objectWidth = 19998`, the rewritten x coordinate of the first point is 9999,
the segment loop stops at once and no segment is stored. -/
theorem setupVAO_rewritten_sentinel_stops_segments :
    (∀ p ∈ [((1 : ℚ), (0 : ℚ)), (0, 0)], p.1 ≠ 9999 ∧ p.2 ≠ 9999) ∧
    setupVAO (exampleObject ℚ) (flatten [((1 : ℚ), (0 : ℚ)), (0, 0)] ++ 9999 :: []) 19998
      = some (exampleObject ℚ, [9999, 0, -9999, 0, 9999]) ∧
    (exampleObject ℚ).segments.length = 0 := by
  refine ⟨?_, ?_, rfl⟩
  · simp
  · simp [setupVAO, rewriteVertices, boundingBox, boundingBoxLoop, rewriteLoop, storeSegments,
      flatten, modelToOriginTransform, scale, translate, mat4_mul_def, mat4_mulVec_def, mat4.mul,
      mat4.mulVec, vec4.dot, mat4.c0, mat4.c1, mat4.c2, mat4.c3, exampleObject]
    norm_num

/-- C8, amended. Segment construction in `Object::setupVAO`: for an input of `2k`
points (`4k` values before the sentinel, no input coordinate equal to 9999, not
all x equal) with bounding box `[minX, maxX] x [minY, maxY]`, and an
`objectWidth` for which no rewritten tail x coordinate (flat index `4j`) equals
9999, the call completes whatever follows the sentinel (also nothing), leaves
the sentinel and what follows it in place, and pushes exactly `k` segments;
segment `j` has tail = rewritten point `2j` and head = rewritten point `2j+1`. -/
theorem setupVAO_stores_one_segment_per_four_values (o : Object K) (pts : List (K × K))
    (junk : List K) (objectWidth : K) (k : Nat) (hk : pts.length = 2 * k)
    (hs : ∀ p ∈ pts, p.1 ≠ 9999 ∧ p.2 ≠ 9999)
    (hx : ∃ p ∈ pts, ∃ q ∈ pts, p.1 ≠ q.1)
    (minX maxX minY maxY : K) (hbox : IsBoundingBox pts minX maxX minY maxY)
    (hn : ∀ j p, pts[2 * j]? = some p →
      objectWidth / (maxX - minX) * (p.1 - (minX + maxX) / 2) ≠ 9999) :
    ∃ (pts1 : List (K × K)) (segs : List (Segment K)),
      pts1 = pts.map (fun p => (objectWidth / (maxX - minX) * (p.1 - (minX + maxX) / 2),
        objectWidth / (maxX - minX) * (p.2 - (minY + maxY) / 2))) ∧
      rewriteVertices (flatten pts ++ 9999 :: junk) objectWidth
        = some (flatten pts1 ++ 9999 :: junk) ∧
      setupVAO o (flatten pts ++ 9999 :: junk) objectWidth
        = some ({ o with segments := o.segments ++ segs }, flatten pts1 ++ 9999 :: junk) ∧
      segs.length = k ∧
      ∀ j, j < k → ∃ p q, pts1[2 * j]? = some p ∧ pts1[2 * j + 1]? = some q ∧
        segs[j]? = some (Segment.mk ⟨p.1, p.2, 0⟩ ⟨q.1, q.2, 0⟩) := by
  have hne : pts ≠ [] := by
    obtain ⟨p, hp, -⟩ := hx
    exact List.ne_nil_of_mem hp
  obtain ⟨hrw, hset⟩ := setupVAO_flatten o pts junk objectWidth k hne hk
    (fun p hp => (hs p hp).1) minX maxX minY maxY hbox hn
  refine ⟨_, _, rfl, hrw, hset, pairUp_length k _ (by simpa using hk), ?_⟩
  intro j hj
  have hlen : (pts.map (fun p => (objectWidth / (maxX - minX) * (p.1 - (minX + maxX) / 2),
      objectWidth / (maxX - minX) * (p.2 - (minY + maxY) / 2)))).length = 2 * k := by
    simpa using hk
  have h0 : 2 * j < (pts.map (fun p => (objectWidth / (maxX - minX) * (p.1 - (minX + maxX) / 2),
      objectWidth / (maxX - minX) * (p.2 - (minY + maxY) / 2)))).length := by omega
  have h1 : 2 * j + 1 < (pts.map (fun p =>
      (objectWidth / (maxX - minX) * (p.1 - (minX + maxX) / 2),
        objectWidth / (maxX - minX) * (p.2 - (minY + maxY) / 2)))).length := by omega
  exact ⟨_, _, List.getElem?_eq_getElem h0, List.getElem?_eq_getElem h1,
    pairUp_getElem? j _ _ _ (List.getElem?_eq_getElem h0) (List.getElem?_eq_getElem h1)⟩

/-- Witness for the amended C8: the rectangle outline `(0,0)-(4,0)`, `(4,2)-(0,2)`
(two segments) with `objectWidth = 2`. -/
theorem setupVAO_stores_one_segment_per_four_values_witness :
    ∃ (pts1 : List (ℚ × ℚ)) (segs : List (Segment ℚ)),
      pts1 = [((0 : ℚ), (0 : ℚ)), (4, 0), (4, 2), (0, 2)].map
        (fun p => ((2 : ℚ) / (4 - 0) * (p.1 - (0 + 4) / 2), (2 : ℚ) / (4 - 0) * (p.2 - (0 + 2) / 2))) ∧
      rewriteVertices (flatten [((0 : ℚ), (0 : ℚ)), (4, 0), (4, 2), (0, 2)] ++ 9999 :: []) 2
        = some (flatten pts1 ++ 9999 :: []) ∧
      setupVAO (exampleObject ℚ)
          (flatten [((0 : ℚ), (0 : ℚ)), (4, 0), (4, 2), (0, 2)] ++ 9999 :: []) 2
        = some ({ exampleObject ℚ with segments := (exampleObject ℚ).segments ++ segs },
            flatten pts1 ++ 9999 :: []) ∧
      segs.length = 2 ∧
      ∀ j, j < 2 → ∃ p q, pts1[2 * j]? = some p ∧ pts1[2 * j + 1]? = some q ∧
        segs[j]? = some (Segment.mk ⟨p.1, p.2, 0⟩ ⟨q.1, q.2, 0⟩) :=
  setupVAO_stores_one_segment_per_four_values (exampleObject ℚ)
    [((0 : ℚ), (0 : ℚ)), (4, 0), (4, 2), (0, 2)] [] 2 2 (by simp) (by simp)
    ⟨(0, 0), by simp, (4, 0), by simp, by norm_num⟩ 0 4 0 2
    (by simp [IsBoundingBox])
    (by
      intro j p hj
      have hp : p ∈ [((0 : ℚ), (0 : ℚ)), (4, 0), (4, 2), (0, 2)] := List.getElem?_mem hj
      simp only [List.mem_cons, List.mem_singleton, List.not_mem_nil, or_false] at hp
      rcases hp with rfl | rfl | rfl | rfl <;> norm_num)

/-- C9. `Object::intersects( Object )` is an existence test over all pairs:
`a.intersects(b)` is true if and only if there are indices `i < a.segments.size()`
and `j < b.segments.size()` such that `Segment::intersects` holds between
segment `j` of `b` moved by `b.modelToWorldTransform()`, that is
`Segment( (Mb * vec4(tail_j)).toVec3(), (Mb * vec4(head_j)).toVec3() )`, and
segment `i` of `a` moved likewise by `a.modelToWorldTransform()`; the early
returns do not change the result. -/
theorem intersects_iff_exists_pair (segI : Segment K → Segment K → Bool) (a b : Object K) :
    intersects segI a b = true ↔
      ∃ i j, ∃ (hi : i < a.segments.length) (hj : j < b.segments.length),
        segI
          (Segment.mk
            (modelToWorldTransform b * vec4.ofVec3 b.segments[j].tail).toVec3
            (modelToWorldTransform b * vec4.ofVec3 b.segments[j].head).toVec3)
          (Segment.mk
            (modelToWorldTransform a * vec4.ofVec3 a.segments[i].tail).toVec3
            (modelToWorldTransform a * vec4.ofVec3 a.segments[i].head).toVec3) = true := by
  rw [intersects_iff_mem]
  constructor
  · rintro ⟨s, hs, t, ht, h⟩
    obtain ⟨i, hi, rfl⟩ := List.getElem_of_mem hs
    obtain ⟨j, hj, rfl⟩ := List.getElem_of_mem ht
    exact ⟨i, j, hi, hj, h⟩
  · rintro ⟨i, j, hi, hj, h⟩
    exact ⟨_, List.getElem_mem _, _, List.getElem_mem _, h⟩

/-- C10. Non-intersection: if the axis-aligned bounding boxes of the world-space
endpoints of two objects are disjoint, `a.intersects(b)` returns false, given
that the primitive `Segment::intersects` returns true only for two segments
that share a point. -/
theorem intersects_false_of_disjoint_boxes (segI : Segment K → Segment K → Bool)
    (a b : Object K) (hprim : ∀ s t, segI s t = true → SharePoint s t)
    (hbox : ∀ ba bb, boxOf (worldEndpoints a) = some ba → boxOf (worldEndpoints b) = some bb →
      ba.disjoint bb) :
    intersects segI a b = false := by
  rw [← Bool.not_eq_true, intersects_iff_mem]
  rintro ⟨s, hs, t, ht, h⟩
  have hsw : worldSegment (modelToWorldTransform a) s
      ∈ a.segments.map (worldSegment (modelToWorldTransform a)) := List.mem_map_of_mem _ hs
  have htw : worldSegment (modelToWorldTransform b) t
      ∈ b.segments.map (worldSegment (modelToWorldTransform b)) := List.mem_map_of_mem _ ht
  obtain ⟨hs1, hs2⟩ := mem_endpoints hsw
  obtain ⟨ht1, ht2⟩ := mem_endpoints htw
  obtain ⟨ba, hba⟩ := boxOf_isSome hs1
  obtain ⟨bb, hbb⟩ := boxOf_isSome ht1
  exact not_sharePoint_of_disjoint (boxOf_bounds hbb _ ht1) (boxOf_bounds hbb _ ht2)
    (boxOf_bounds hba _ hs1) (boxOf_bounds hba _ hs2)
    (by
      rcases hbox ba bb hba hbb with h | h | h | h
      · exact Or.inr (Or.inl h)
      · exact Or.inl h
      · exact Or.inr (Or.inr (Or.inr h))
      · exact Or.inr (Or.inr (Or.inl h)))
    (hprim _ _ h)

/-- Witness for C10: the modelled primitive is true only for segments that
share a point; the two objects carry the segment `(0,0)-(1,1)`, one at the
origin and one at `(3,0,0)`, so their boxes `[0,1] x [0,1]` and `[3,4] x [0,1]`
are disjoint. -/
theorem intersects_false_of_disjoint_boxes_witness :
    intersects segmentIntersects
        ({ exampleObject ℚ with segments := [⟨⟨0, 0, 0⟩, ⟨1, 1, 0⟩⟩] } : Object ℚ)
        { exampleObject ℚ with segments := [⟨⟨0, 0, 0⟩, ⟨1, 1, 0⟩⟩], position := ⟨3, 0, 0⟩ }
      = false :=
  intersects_false_of_disjoint_boxes segmentIntersects _ _ segmentIntersects_sharePoint
    (by
      have we1 : worldEndpoints
          ({ exampleObject ℚ with segments := [⟨⟨0, 0, 0⟩, ⟨1, 1, 0⟩⟩] } : Object ℚ)
          = [⟨0, 0, 0⟩, ⟨1, 1, 0⟩] := by
        simp [worldEndpoints, endpoints, worldSegment, modelToWorldTransform, exampleObject,
          quaternion.identity, quaternion.toMatrix, scale, translate, mat4_mul_def,
          mat4_mulVec_def, mat4.mul, mat4.mulVec, vec4.dot, mat4.c0, mat4.c1, mat4.c2, mat4.c3,
          vec4.ofVec3, vec4.toVec3]
      have we2 : worldEndpoints
          { exampleObject ℚ with segments := [⟨⟨0, 0, 0⟩, ⟨1, 1, 0⟩⟩], position := ⟨3, 0, 0⟩ }
          = [(⟨3, 0, 0⟩ : vec3 ℚ), ⟨4, 1, 0⟩] := by
        simp [worldEndpoints, endpoints, worldSegment, modelToWorldTransform, exampleObject,
          quaternion.identity, quaternion.toMatrix, scale, translate, mat4_mul_def,
          mat4_mulVec_def, mat4.mul, mat4.mulVec, vec4.dot, mat4.c0, mat4.c1, mat4.c2, mat4.c3,
          vec4.ofVec3, vec4.toVec3]
        norm_num
      intro ba bb ha hb
      rw [we1] at ha
      rw [we2] at hb
      simp only [boxOf, List.foldl, Box.extend, Option.some.injEq] at ha hb
      subst ha
      subst hb
      norm_num [Box.disjoint])

/-- C11. Unit-norm invariant of the orientation under `Object::updatePose`: if the
orientation is a unit quaternion before the call then, for every `deltaT` and
every `angularVelocity` (the branch with the normalised axis and the fallback
branch with the z-axis alike), it is a unit quaternion after the call.  The facts
used about the math library are `cos^2 t + sin^2 t = 1` for every `t` and
`sqrt x * sqrt x = x` for every `x >= 0`, as over the reals. -/
theorem updatePose_preserves_unit_orientation (m : CMath K) (o : Object K) (deltaT : K)
    (hcs : ∀ t, m.cos t * m.cos t + m.sin t * m.sin t = 1)
    (hsqrt : ∀ x, 0 ≤ x → m.sqrt x * m.sqrt x = x)
    (hunit : o.orientation.normSq = 1) :
    (updatePose m o deltaT).orientation.normSq = 1 := by
  rw [updatePose_orientation, quaternion_normSq_mul, hunit, mul_one]
  exact quaternion_normSq_ofAngleAxis m _ _ hcs (rotationAxisOf_unit m o hsqrt)

/-- Witness for C11: over the reals with the real square root, cosine and sine,
`angularVelocity = (3, 4, 0)`, the identity orientation and a step of 1/60. -/
theorem updatePose_preserves_unit_orientation_witness :
    (updatePose (⟨Real.sqrt, Real.cos, Real.sin⟩ : CMath ℝ)
      { exampleObject ℝ with angularVelocity := ⟨3, 4, 0⟩ } (1 / 60)).orientation.normSq = 1 :=
  updatePose_preserves_unit_orientation _ _ _
    (fun t => by have := Real.cos_sq_add_sin_sq t; nlinarith)
    (fun x hx => Real.mul_self_sqrt hx)
    (by simp [exampleObject, quaternion.normSq, quaternion.identity])

/-- C12. Orientation update order in `Object::updatePose`: for every `deltaT` and
every `angularVelocity` with length greater than 0.0001, the rotation axis is
`angularVelocity / |angularVelocity|` and the new orientation is
`q * oldOrientation`, the incremental rotation `q` (angle
`deltaT * |angularVelocity|` about that axis) on the left. -/
theorem updatePose_left_multiplies_increment (m : CMath K) (o : Object K) (deltaT : K)
    (hlen : o.angularVelocity.length m > 1 / 10000) :
    rotationAxisOf m o = o.angularVelocity.normalize m ∧
    (updatePose m o deltaT).orientation
      = quaternion.ofAngleAxis m (deltaT * o.angularVelocity.length m)
          (o.angularVelocity.normalize m) * o.orientation := by
  have hax : rotationAxisOf m o = o.angularVelocity.normalize m := by
    simp only [rotationAxisOf, if_pos hlen]
  refine ⟨hax, ?_⟩
  rw [updatePose_orientation, incrementalRotation, hax]

/-- Witness for C12: over the reals, `angularVelocity = (pi, 0, 0)`, `deltaT = 1`
and the old orientation `(0,0,1,0)`: `q = (0,1,0,0)`, the new orientation is
`q * old = (0,0,0,1)`, whereas `old * q = (0,0,0,-1)`. -/
theorem updatePose_left_multiplies_increment_witness :
    (updatePose (⟨Real.sqrt, Real.cos, Real.sin⟩ : CMath ℝ)
        { exampleObject ℝ with angularVelocity := ⟨Real.pi, 0, 0⟩, orientation := ⟨0, 0, 1, 0⟩ }
        1).orientation
      = quaternion.ofAngleAxis (⟨Real.sqrt, Real.cos, Real.sin⟩ : CMath ℝ)
          (1 * vec3.length (⟨Real.sqrt, Real.cos, Real.sin⟩ : CMath ℝ) ⟨Real.pi, 0, 0⟩)
          (vec3.normalize (⟨Real.sqrt, Real.cos, Real.sin⟩ : CMath ℝ) ⟨Real.pi, 0, 0⟩)
        * (⟨0, 0, 1, 0⟩ : quaternion ℝ) ∧
    (updatePose (⟨Real.sqrt, Real.cos, Real.sin⟩ : CMath ℝ)
        { exampleObject ℝ with angularVelocity := ⟨Real.pi, 0, 0⟩, orientation := ⟨0, 0, 1, 0⟩ }
        1).orientation = ⟨0, 0, 0, 1⟩ ∧
    (⟨0, 0, 1, 0⟩ : quaternion ℝ)
        * quaternion.ofAngleAxis (⟨Real.sqrt, Real.cos, Real.sin⟩ : CMath ℝ)
          (1 * vec3.length (⟨Real.sqrt, Real.cos, Real.sin⟩ : CMath ℝ) ⟨Real.pi, 0, 0⟩)
          (vec3.normalize (⟨Real.sqrt, Real.cos, Real.sin⟩ : CMath ℝ) ⟨Real.pi, 0, 0⟩)
      = ⟨0, 0, 0, -1⟩ := by
  have hlen : vec3.length (⟨Real.sqrt, Real.cos, Real.sin⟩ : CMath ℝ) ⟨Real.pi, 0, 0⟩
      = Real.pi := by
    simp only [vec3.length, mul_zero, add_zero]
    exact Real.sqrt_mul_self Real.pi_pos.le
  have hq : quaternion.ofAngleAxis (⟨Real.sqrt, Real.cos, Real.sin⟩ : CMath ℝ)
      (1 * vec3.length (⟨Real.sqrt, Real.cos, Real.sin⟩ : CMath ℝ) ⟨Real.pi, 0, 0⟩)
      (vec3.normalize (⟨Real.sqrt, Real.cos, Real.sin⟩ : CMath ℝ) ⟨Real.pi, 0, 0⟩)
      = ⟨0, 1, 0, 0⟩ := by
    simp only [vec3.normalize, hlen, quaternion.ofAngleAxis, one_mul, Real.cos_pi_div_two,
      Real.sin_pi_div_two, div_self Real.pi_ne_zero, zero_div, mul_one, mul_zero]
  have h := (updatePose_left_multiplies_increment (⟨Real.sqrt, Real.cos, Real.sin⟩ : CMath ℝ)
    { exampleObject ℝ with angularVelocity := ⟨Real.pi, 0, 0⟩, orientation := ⟨0, 0, 1, 0⟩ } 1
    (by
      show vec3.length (⟨Real.sqrt, Real.cos, Real.sin⟩ : CMath ℝ) ⟨Real.pi, 0, 0⟩ > 1 / 10000
      rw [hlen]
      linarith [Real.pi_gt_three])).2
  refine ⟨h, ?_, ?_⟩
  · rw [h]
    show quaternion.ofAngleAxis (⟨Real.sqrt, Real.cos, Real.sin⟩ : CMath ℝ)
      (1 * vec3.length (⟨Real.sqrt, Real.cos, Real.sin⟩ : CMath ℝ) ⟨Real.pi, 0, 0⟩)
      (vec3.normalize (⟨Real.sqrt, Real.cos, Real.sin⟩ : CMath ℝ) ⟨Real.pi, 0, 0⟩)
        * (⟨0, 0, 1, 0⟩ : quaternion ℝ) = ⟨0, 0, 0, 1⟩
    rw [hq]
    simp [quaternion_mul_def, quaternion.mul]
  · rw [hq]
    simp [quaternion_mul_def, quaternion.mul]

/-- C13. Frame of `Object::updatePose`: the call changes only the position and the
orientation; the velocity, the angular velocity, the scale factor, the segment
list and the world are the same before and after, and `position.z` is exactly
the old `position.z + deltaT * velocity.z` (no wrap on z). -/
theorem updatePose_frame (m : CMath K) (o : Object K) (deltaT : K) :
    (updatePose m o deltaT).velocity = o.velocity ∧
    (updatePose m o deltaT).angularVelocity = o.angularVelocity ∧
    (updatePose m o deltaT).scaleFactor = o.scaleFactor ∧
    (updatePose m o deltaT).segments = o.segments ∧
    (updatePose m o deltaT).world = o.world ∧
    (updatePose m o deltaT).position.z = o.position.z + deltaT * o.velocity.z := by
  refine ⟨rfl, rfl, rfl, rfl, rfl, ?_⟩
  simp only [updatePose, vec3_add_def, vec3_smul_def, vec3.add, vec3.smul]
  split_ifs <;> rfl

/-- C14. The matrix that `Object::draw` hands to the renderer is
`projection * worldToViewTransform * modelToWorldTransform()` with the 4x4
identity as projection, so for every `worldToViewTransform` it equals
`worldToViewTransform * T(position) * R(orientation) * S(scaleFactor, scaleFactor, 1)`. -/
theorem draw_matrix (o : Object K) (worldToViewTransform : mat4 K) :
    draw o worldToViewTransform
      = identity4 * worldToViewTransform * modelToWorldTransform o ∧
    draw o worldToViewTransform
      = worldToViewTransform * translate o.position * o.orientation.toMatrix
          * scale o.scaleFactor o.scaleFactor 1 := by
  refine ⟨rfl, ?_⟩
  simp only [draw, modelToWorldTransform, mat4_identity_mul, mat4_mul_assoc]

/-- C15, as stated, fails in the `float` arithmetic of the code.  In binary32, with
`worldMin.x = -(0.5 + 2^-24)`, `worldMax.x = 3.5 + 2^-22`, an object that starts
on `worldMin.x` with velocity `(-2^-24, 0, 0)` and `deltaT = 1` (binary32 numbers;
the start is inside the world and the displacement `2^-24` is far below the
extent), the coordinate before the tests is `c = -(0.5 + 2^-23) < worldMin.x`.
The extent rounds to `4 + 2^-21`, and `c + W` rounds to `3.5 + 2^-21`, which is
above `worldMax.x`: the stored position is outside the world. -/
theorem updatePose_binary32_leaves_world :
    (round32 leavesWorldObject.position.x = leavesWorldObject.position.x ∧
      round32 leavesWorldObject.velocity.x = leavesWorldObject.velocity.x ∧
      round32 leavesWorldObject.world.worldMin.x = leavesWorldObject.world.worldMin.x ∧
      round32 leavesWorldObject.world.worldMax.x = leavesWorldObject.world.worldMax.x) ∧
    (leavesWorldObject.world.worldMin.x ≤ leavesWorldObject.world.worldMax.x ∧
      leavesWorldObject.world.worldMin.y ≤ leavesWorldObject.world.worldMax.y) ∧
    (leavesWorldObject.world.worldMin.x ≤ leavesWorldObject.position.x ∧
      leavesWorldObject.position.x ≤ leavesWorldObject.world.worldMax.x ∧
      leavesWorldObject.world.worldMin.y ≤ leavesWorldObject.position.y ∧
      leavesWorldObject.position.y ≤ leavesWorldObject.world.worldMax.y) ∧
    (|1 * leavesWorldObject.velocity.x|
        ≤ leavesWorldObject.world.worldMax.x - leavesWorldObject.world.worldMin.x ∧
      |mul32 1 leavesWorldObject.velocity.x|
        ≤ sub32 leavesWorldObject.world.worldMax.x leavesWorldObject.world.worldMin.x ∧
      |1 * leavesWorldObject.velocity.y|
        ≤ leavesWorldObject.world.worldMax.y - leavesWorldObject.world.worldMin.y) ∧
    add32 leavesWorldObject.position.x (mul32 1 leavesWorldObject.velocity.x)
      = -(1 / 2 + 1 / 2 ^ 23) ∧
    -(1 / 2 + 1 / 2 ^ 23) < leavesWorldObject.world.worldMin.x ∧
    sub32 leavesWorldObject.world.worldMax.x leavesWorldObject.world.worldMin.x
      = 4 + 1 / 2 ^ 21 ∧
    (updatePosePosition32 leavesWorldObject 1).x = 7 / 2 + 1 / 2 ^ 21 ∧
    leavesWorldObject.world.worldMax.x < (updatePosePosition32 leavesWorldObject 1).x := by
  have hp : round32 (-(1 / 2 + 1 / 2 ^ 24)) = -(1 / 2 + 1 / 2 ^ 24) := by
    rw [round32_eq _ (-1) (by norm_num [abs_of_pos]) (by norm_num [abs_of_pos]),
      roundHalfEven_eq _ (-8388609) (by norm_num) (by norm_num)]
    norm_num
  have hv : round32 (-(1 / 2 ^ 24)) = -(1 / 2 ^ 24) := by
    rw [round32_eq _ (-24) (by norm_num [abs_of_pos]) (by norm_num [abs_of_pos]),
      roundHalfEven_eq _ (-8388608) (by norm_num) (by norm_num)]
    norm_num
  have hmax : round32 (7 / 2 + 1 / 2 ^ 22) = 7 / 2 + 1 / 2 ^ 22 := by
    rw [round32_eq _ 1 (by norm_num [abs_of_pos]) (by norm_num [abs_of_pos]),
      roundHalfEven_eq _ 14680065 (by norm_num) (by norm_num)]
    norm_num
  have hw : round32 (7 / 2 + 1 / 2 ^ 22 - -(1 / 2 + 1 / 2 ^ 24)) = 4 + 1 / 2 ^ 21 := by
    rw [round32_eq _ 2 (by norm_num [abs_of_pos]) (by norm_num [abs_of_pos]),
      roundHalfEven_eq _ 8388608 (by norm_num) (by norm_num)]
    norm_num
  have hc : round32 (-(1 / 2 + 1 / 2 ^ 24) + -(1 / 2 ^ 24)) = -(1 / 2 + 1 / 2 ^ 23) := by
    rw [round32_eq _ (-1) (by norm_num [abs_of_neg]) (by norm_num [abs_of_neg]),
      roundHalfEven_eq _ (-8388610) (by norm_num) (by norm_num)]
    norm_num
  -- 29360131 / 8388608 = -(1/2 + 2^-23) + (4 + 2^-21) = 7/2 + 3 * 2^-23, half-way between
  -- the binary32 numbers 7/2 + 2^-22 and 7/2 + 2^-21
  have ha : round32 (29360131 / 8388608) = 7 / 2 + 1 / 2 ^ 21 := by
    rw [round32_eq _ 1 (by norm_num [abs_of_pos]) (by norm_num [abs_of_pos]),
      roundHalfEven_eq _ 14680065 (by norm_num) (by norm_num)]
    norm_num
  have hx : (updatePosePosition32 leavesWorldObject 1).x = 7 / 2 + 1 / 2 ^ 21 := by
    rw [updatePosePosition32_x]
    simp only [leavesWorldObject, exampleObject, add32, sub32, mul32, one_mul, hv, hc, hw]
    norm_num [ha]
  refine ⟨⟨hp, hv, ?_, hmax⟩, ?_, ?_, ⟨?_, ?_, ?_⟩, ?_, ?_, ?_, hx, ?_⟩
  · exact hp
  · norm_num [leavesWorldObject, exampleObject]
  · norm_num [leavesWorldObject, exampleObject]
  · norm_num [leavesWorldObject, exampleObject, abs_of_pos]
  · simp only [leavesWorldObject, sub32, mul32, one_mul, hv, hw]
    norm_num [abs_of_pos]
  · norm_num [leavesWorldObject, exampleObject]
  · simp only [leavesWorldObject, exampleObject, add32, mul32, one_mul, hv, hc]
  · norm_num [leavesWorldObject]
  · simp only [leavesWorldObject, sub32, hw]
  · rw [hx]
    norm_num [leavesWorldObject]

/-- C15, amended. One-shot wrap suffices, in exact arithmetic: when
`worldMin <= worldMax` on each axis, the position lies inside
`[worldMin, worldMax]` on x and y before `Object::updatePose`, and the
displacement `|deltaT * velocity|` on each of x and y is at most the extent of
the world on that axis, the position lies inside `[worldMin, worldMax]` on x and
y after the call. -/
theorem updatePose_stays_inside (m : CMath K) (o : Object K) (deltaT : K)
    (hwx : o.world.worldMin.x ≤ o.world.worldMax.x)
    (hwy : o.world.worldMin.y ≤ o.world.worldMax.y)
    (hpx : o.world.worldMin.x ≤ o.position.x ∧ o.position.x ≤ o.world.worldMax.x)
    (hpy : o.world.worldMin.y ≤ o.position.y ∧ o.position.y ≤ o.world.worldMax.y)
    (hdx : |deltaT * o.velocity.x| ≤ o.world.worldMax.x - o.world.worldMin.x)
    (hdy : |deltaT * o.velocity.y| ≤ o.world.worldMax.y - o.world.worldMin.y) :
    (o.world.worldMin.x ≤ (updatePose m o deltaT).position.x ∧
      (updatePose m o deltaT).position.x ≤ o.world.worldMax.x) ∧
    (o.world.worldMin.y ≤ (updatePose m o deltaT).position.y ∧
      (updatePose m o deltaT).position.y ≤ o.world.worldMax.y) := by
  obtain ⟨hdx1, hdx2⟩ := abs_le.mp hdx
  obtain ⟨hdy1, hdy2⟩ := abs_le.mp hdy
  rw [updatePose_position_x, updatePose_position_y]
  refine ⟨?_, ?_⟩
  · split_ifs <;> constructor <;> linarith [hpx.1, hpx.2, hwx]
  · split_ifs <;> constructor <;> linarith [hpy.1, hpy.2, hwy]

/-- Witness for the amended C15: in the world `[-1, 1] x [-1, 1]` an object at `(0.9, 0)` with
velocity `(1, 0, 0)` and a step of 0.5 (it leaves on the right and re-enters on
the left). -/
theorem updatePose_stays_inside_witness :
    ((-1 : ℝ) ≤ (updatePose (⟨Real.sqrt, Real.cos, Real.sin⟩ : CMath ℝ)
        { exampleObject ℝ with position := ⟨9 / 10, 0, 0⟩, velocity := ⟨1, 0, 0⟩ }
        (1 / 2)).position.x ∧
      (updatePose (⟨Real.sqrt, Real.cos, Real.sin⟩ : CMath ℝ)
        { exampleObject ℝ with position := ⟨9 / 10, 0, 0⟩, velocity := ⟨1, 0, 0⟩ }
        (1 / 2)).position.x ≤ 1) ∧
    ((-1 : ℝ) ≤ (updatePose (⟨Real.sqrt, Real.cos, Real.sin⟩ : CMath ℝ)
        { exampleObject ℝ with position := ⟨9 / 10, 0, 0⟩, velocity := ⟨1, 0, 0⟩ }
        (1 / 2)).position.y ∧
      (updatePose (⟨Real.sqrt, Real.cos, Real.sin⟩ : CMath ℝ)
        { exampleObject ℝ with position := ⟨9 / 10, 0, 0⟩, velocity := ⟨1, 0, 0⟩ }
        (1 / 2)).position.y ≤ 1) :=
  updatePose_stays_inside (⟨Real.sqrt, Real.cos, Real.sin⟩ : CMath ℝ)
    { exampleObject ℝ with position := ⟨9 / 10, 0, 0⟩, velocity := ⟨1, 0, 0⟩ } (1 / 2)
    (by norm_num [exampleObject]) (by norm_num [exampleObject])
    (by norm_num [exampleObject]) (by norm_num [exampleObject])
    (by norm_num [exampleObject, abs_le]) (by norm_num [exampleObject])

/-- C16. `Object::intersects( Segment )` tests the given world-space segment
against every local segment moved to world space: the result is true if and
only if there is an index `i < segments.size()` such that
`Segment( M * tail_i, M * head_i ).intersects( seg )` is true, `M` being the
current `modelToWorldTransform()`; with an empty segment list the result is
false. -/
theorem intersectsSegment_iff_exists_index (segI : Segment K → Segment K → Bool)
    (o : Object K) (seg : Segment K) :
    (intersectsSegment segI o seg = true ↔
      ∃ i, ∃ hi : i < o.segments.length,
        segI (Segment.mk
          (modelToWorldTransform o * vec4.ofVec3 o.segments[i].tail).toVec3
          (modelToWorldTransform o * vec4.ofVec3 o.segments[i].head).toVec3) seg = true) ∧
    intersectsSegment segI { o with segments := [] } seg = false := by
  refine ⟨?_, rfl⟩
  rw [intersectsSegment, intersectsSegmentLoop_iff]
  constructor
  · rintro ⟨s, hs, h⟩
    obtain ⟨i, hi, rfl⟩ := List.getElem_of_mem hs
    exact ⟨i, hi, h⟩
  · rintro ⟨i, hi, h⟩
    exact ⟨_, List.getElem_mem _, h⟩

/-- C17. Normalisation is idempotent, in exact arithmetic: for a valid vertex
array (no coordinate equal to 9999, not all x equal) and `objectWidth > 0` the
rewrite of `Object::setupVAO` completes; if no rewritten coordinate equals 9999
either, a second rewrite with the same `objectWidth` on the rewritten buffer
computes the scale factor 1 and the translation 0 and leaves every vertex
unchanged. -/
theorem rewriteVertices_idempotent (pts : List (K × K)) (junk : List K) (objectWidth : K)
    (hs : ∀ p ∈ pts, p.1 ≠ 9999 ∧ p.2 ≠ 9999)
    (hx : ∃ p ∈ pts, ∃ q ∈ pts, p.1 ≠ q.1) (hw : 0 < objectWidth) :
    ∃ pts1 : List (K × K),
      rewriteVertices (flatten pts ++ 9999 :: junk) objectWidth
        = some (flatten pts1 ++ 9999 :: junk) ∧
      pts1.length = pts.length ∧
      ((∀ p ∈ pts1, p.1 ≠ 9999 ∧ p.2 ≠ 9999) →
        (∃ mn mx : vec3 K, boundingBox (flatten pts1 ++ 9999 :: junk) = some (mn, mx) ∧
          objectWidth / (mx.x - mn.x) = 1 ∧
          -(1 / 2) * (mn.x + mx.x) = 0 ∧ -(1 / 2) * (mn.y + mx.y) = 0) ∧
        rewriteVertices (flatten pts1 ++ 9999 :: junk) objectWidth
          = some (flatten pts1 ++ 9999 :: junk)) := by
  obtain ⟨pts1, minY, maxY, hrw, hlen, hbox1, hc⟩ :=
    rewriteVertices_flatten_box junk pts objectWidth (fun p hp => (hs p hp).1) hx hw
  refine ⟨pts1, hrw, hlen, fun hs1 => ?_⟩
  have hne1 : pts1 ≠ [] := by
    obtain ⟨p, hp, -⟩ := hbox1.2.1
    exact List.ne_nil_of_mem hp
  obtain ⟨mn, mx, hbb, hbox2⟩ := boundingBox_flatten junk pts1 hne1 (fun p hp => (hs1 p hp).1)
  obtain ⟨e1, e2, e3, e4⟩ := hbox2.unique hbox1
  have hscale : objectWidth / (mx.x - mn.x) = 1 := by
    rw [e1, e2]
    field_simp
  have hcx : -(1 / 2) * (mn.x + mx.x) = 0 := by rw [e1, e2]; ring
  have hcy : -(1 / 2) * (mn.y + mx.y) = 0 := by rw [e3, e4, hc]; ring
  refine ⟨⟨mn, mx, hbb, hscale, hcx, hcy⟩, ?_⟩
  simp only [rewriteVertices, hbb, rewriteLoop_flatten _ junk pts1 (fun p hp => (hs1 p hp).1)]
  congr 3
  have hid : ∀ p ∈ pts1, rewritePoint (modelToOriginTransform mn mx objectWidth) p = p := by
    intro p _
    rw [rewritePoint_modelToOrigin, hscale]
    have hx0 : (mn.x + mx.x) / 2 = 0 := by linarith
    have hy0 : (mn.y + mx.y) / 2 = 0 := by linarith
    rw [hx0, hy0]
    simp
  calc pts1.map (rewritePoint (modelToOriginTransform mn mx objectWidth))
      = pts1.map id := List.map_congr_left hid
    _ = pts1 := List.map_id _

/-- Witness for C17: the triangle `(0,0), (4,2), (1,5)` with `objectWidth = 2`; its
rewritten buffer is `-1, -5/4, 1, -1/4, -1/2, 5/4, 9999`, which a second rewrite
returns unchanged. -/
theorem rewriteVertices_idempotent_witness :
    (∃ pts1 : List (ℚ × ℚ),
      rewriteVertices (flatten [((0 : ℚ), (0 : ℚ)), (4, 2), (1, 5)] ++ 9999 :: []) 2
        = some (flatten pts1 ++ 9999 :: []) ∧
      pts1.length = [((0 : ℚ), (0 : ℚ)), (4, 2), (1, 5)].length ∧
      ((∀ p ∈ pts1, p.1 ≠ 9999 ∧ p.2 ≠ 9999) →
        (∃ mn mx : vec3 ℚ, boundingBox (flatten pts1 ++ 9999 :: []) = some (mn, mx) ∧
          (2 : ℚ) / (mx.x - mn.x) = 1 ∧
          -(1 / 2) * (mn.x + mx.x) = 0 ∧ -(1 / 2) * (mn.y + mx.y) = 0) ∧
        rewriteVertices (flatten pts1 ++ 9999 :: []) 2 = some (flatten pts1 ++ 9999 :: []))) ∧
    rewriteVertices (flatten [((0 : ℚ), (0 : ℚ)), (4, 2), (1, 5)] ++ 9999 :: []) 2
      = some [-1, -5 / 4, 1, -1 / 4, -1 / 2, 5 / 4, 9999] ∧
    rewriteVertices ([-1, -5 / 4, 1, -1 / 4, -1 / 2, 5 / 4, 9999] : List ℚ) 2
      = some [-1, -5 / 4, 1, -1 / 4, -1 / 2, 5 / 4, 9999] := by
  refine ⟨rewriteVertices_idempotent [((0 : ℚ), (0 : ℚ)), (4, 2), (1, 5)] [] 2 (by simp)
    ⟨(0, 0), by simp, (4, 2), by simp, by norm_num⟩ (by norm_num), ?_, ?_⟩
  · norm_num [rewriteVertices, boundingBox, boundingBoxLoop, rewriteLoop, flatten,
      modelToOriginTransform, scale, translate, mat4_mul_def, mat4_mulVec_def, mat4.mul,
      mat4.mulVec, vec4.dot, mat4.c0, mat4.c1, mat4.c2, mat4.c3]
  · norm_num [rewriteVertices, boundingBox, boundingBoxLoop, rewriteLoop,
      modelToOriginTransform, scale, translate, mat4_mul_def, mat4_mulVec_def, mat4.mul,
      mat4.mulVec, vec4.dot, mat4.c0, mat4.c1, mat4.c2, mat4.c3]

/-- C18. Normalisation is translation-invariant, in exact arithmetic: for a valid
vertex array (no coordinate equal to 9999, not all x equal), every `objectWidth`
and every offset `(dx, dy)` such that no shifted coordinate equals 9999, the
rewrite of `Object::setupVAO` completes on the original and on the shifted array
and produces the same vertices. -/
theorem rewriteVertices_translation_invariant (pts : List (K × K)) (junk : List K)
    (objectWidth dx dy : K)
    (hs : ∀ p ∈ pts, p.1 ≠ 9999 ∧ p.2 ≠ 9999)
    (hx : ∃ p ∈ pts, ∃ q ∈ pts, p.1 ≠ q.1)
    (hshift : ∀ p ∈ pts, p.1 + dx ≠ 9999 ∧ p.2 + dy ≠ 9999) :
    ∃ pts1 : List (K × K),
      rewriteVertices (flatten pts ++ 9999 :: junk) objectWidth
        = some (flatten pts1 ++ 9999 :: junk) ∧
      pts1.length = pts.length ∧
      rewriteVertices (flatten (pts.map (fun p => (p.1 + dx, p.2 + dy))) ++ 9999 :: junk)
          objectWidth
        = some (flatten pts1 ++ 9999 :: junk) := by
  have hne : pts ≠ [] := by
    obtain ⟨p, hp, -⟩ := hx
    exact List.ne_nil_of_mem hp
  obtain ⟨mn, mx, hbox, hrw⟩ :=
    rewriteVertices_flatten junk pts hne (fun p hp => (hs p hp).1) objectWidth
  have hne2 : pts.map (fun p => (p.1 + dx, p.2 + dy)) ≠ [] := by simpa using hne
  have hs2 : ∀ q ∈ pts.map (fun p => (p.1 + dx, p.2 + dy)), q.1 ≠ 9999 := by
    intro q hq
    obtain ⟨p, hp, rfl⟩ := List.mem_map.mp hq
    exact (hshift p hp).1
  obtain ⟨mn2, mx2, hbox2, hrw2⟩ := rewriteVertices_flatten junk _ hne2 hs2 objectWidth
  obtain ⟨e1, e2, e3, e4⟩ := hbox2.unique (hbox.map_shift dx dy)
  refine ⟨_, hrw, by simp, ?_⟩
  rw [hrw2, e1, e2, e3, e4, List.map_map]
  congr 4
  funext p
  have hd : mx.x + dx - (mn.x + dx) = mx.x - mn.x := by ring
  simp only [Function.comp, hd]
  refine Prod.ext ?_ ?_
  · show objectWidth / (mx.x - mn.x) * (p.1 + dx - (mn.x + dx + (mx.x + dx)) / 2)
      = objectWidth / (mx.x - mn.x) * (p.1 - (mn.x + mx.x) / 2)
    congr 1
    ring
  · show objectWidth / (mx.x - mn.x) * (p.2 + dy - (mn.y + dy + (mx.y + dy)) / 2)
      = objectWidth / (mx.x - mn.x) * (p.2 - (mn.y + mx.y) / 2)
    congr 1
    ring

/-- Witness for C18: the triangle `(0,0), (4,2), (1,5)` shifted by `(10, -3)`, with
`objectWidth = 2`. -/
theorem rewriteVertices_translation_invariant_witness :
    ∃ pts1 : List (ℚ × ℚ),
      rewriteVertices (flatten [((0 : ℚ), (0 : ℚ)), (4, 2), (1, 5)] ++ 9999 :: []) 2
        = some (flatten pts1 ++ 9999 :: []) ∧
      pts1.length = [((0 : ℚ), (0 : ℚ)), (4, 2), (1, 5)].length ∧
      rewriteVertices
          (flatten ([((0 : ℚ), (0 : ℚ)), (4, 2), (1, 5)].map (fun p => (p.1 + 10, p.2 + -3)))
            ++ 9999 :: []) 2
        = some (flatten pts1 ++ 9999 :: []) :=
  rewriteVertices_translation_invariant [((0 : ℚ), (0 : ℚ)), (4, 2), (1, 5)] [] 2 10 (-3)
    (by simp) ⟨(0, 0), by simp, (4, 2), by simp, by norm_num⟩ (by norm_num)

end Claims

end Asteroids
